import Mathlib

/-!
# Non-conformal momentum assembly

A shallow embedding of `AssembleMomentumNonConformalSolverAlgorithm` (file
`src/AssembleMomentumNonConformalSolverAlgorithm.C`): the constructor's option
switch and the body of `execute`, one Lean definition per block of the source.

Conventions of the embedding.

* `double` is idealised as `ℚ`: arithmetic is exact, `0.5` is `1/2`,
  `2.0/3.0` is `2/3`, and `x/0 = 0` (Lean's convention for division).
  `std::sqrt` is not code of this file and is a parameter (`Realm.sqrt`).
* `int` sizes and indices are natural numbers; no overflow is modelled.
* `std::vector<T>` is `List T`; `v.resize(n)` is `resize v n z` (it keeps the
  first entries and pads with the value-initialised `z`); a write `p[k] = x`
  through the raw pointer `p = &v[0]` is `List.set`, a read `p[k]` is
  `getD k 0`.  An index outside the vector is undefined behaviour in C++; here
  such a write is dropped and such a read gives `0`.
* `stk::mesh::field_data(field, entity)` returns a raw `double*`; it is a
  function from the offset to the value.
* `for ( int k = 0; k < n; ++k ) body` is `forLoop n init body`.
* The master-element and topology methods (`interpolatePoint`,
  `general_shape_fcn`, `general_face_grad_op`, `sidePcoords_to_elemPcoords`,
  `side_node_ordinals`) are external; each is a function of the buffers it
  reads that returns the output buffer it fills.
* The parallel exchange of ghosted field data at lines 168-170 happens before
  the loops and only changes what the field accessors return; the fields of
  `Realm` are the values after it.
-/

namespace Nalu

/-! ## Data model -/

/-- A mesh entity (`stk::mesh::Entity`): node, face or element handle. -/
abbrev Entity := Nat

/-- Method `std::vector::resize`: keep the first `n` entries, pad with `z`. -/
def resize {α : Type} (v : List α) (n : Nat) (z : α) : List α :=
  v.take n ++ List.replicate (n - v.length) z

/-- A counted loop `for ( int k = 0; k < n; ++k )` threading the state `σ`. -/
def forLoop {σ : Type} (n : Nat) (init : σ) (body : σ → Nat → σ) : σ :=
  (List.range n).foldl body init

/-- The members of `MasterElement` that `execute` uses.  `general_face_grad_op`
also fills a determinant and an error value, neither of which is read. -/
structure MasterElement where
  /-- Member `nodesPerElement_`. -/
  nodesPerElement_ : Nat
  /-- Call `interpolatePoint(nComp, isoParCoord, field, result)`; gives `result`. -/
  interpolatePoint : Nat → List ℚ → List ℚ → List ℚ
  /-- Call `general_shape_fcn(1, isoParCoord, shpfc)`; gives `shpfc`. -/
  general_shape_fcn : List ℚ → List ℚ
  /-- Call `sidePcoords_to_elemPcoords(ordinal, 1, side_pcoords, elem_pcoords)`. -/
  sidePcoords_to_elemPcoords : Nat → List ℚ → List ℚ
  /-- Call `general_face_grad_op(ordinal, isoParCoord, coords, gradop, det_j, error)`;
  gives `gradop`. -/
  general_face_grad_op : Nat → List ℚ → List ℚ → List ℚ

/-- The member of `stk::topology` that `execute` uses. -/
structure Topology where
  /-- Call `side_node_ordinals(ordinal, out)`; gives the ordinals written to `out`. -/
  side_node_ordinals : Nat → List Nat

/-- One correspondence (`DgInfo`): the members read by `execute`. -/
structure DgInfo where
  currentFace_ : Entity
  opposingFace_ : Entity
  currentElement_ : Entity
  opposingElement_ : Entity
  currentElementTopo_ : Topology
  opposingElementTopo_ : Topology
  currentFaceOrdinal_ : Nat
  opposingFaceOrdinal_ : Nat
  meFCCurrent_ : MasterElement
  meFCOpposing_ : MasterElement
  meSCSCurrent_ : MasterElement
  meSCSOpposing_ : MasterElement
  currentGaussPointId_ : Nat
  currentIsoParCoords_ : List ℚ
  opposingIsoParCoords_ : List ℚ

/-- What `execute` reads from `realm_`: the spatial dimension, the node
relations of `bulk_data`, the registered fields, and the list
`nonConformalManager_->nonConformalInfoVec_` (each entry's `dgInfoVec_`). -/
structure Realm where
  /-- Value of `meta_data.spatial_dimension()`. -/
  nDim : Nat
  /-- Calls `bulk_data.begin_nodes(e)`, `bulk_data.num_nodes(e)`. -/
  begin_nodes : Entity → List Entity
  /-- Field `velocity_->field_of_state(stk::mesh::StateNP1)` at a node. -/
  velocityNp1 : Entity → Nat → ℚ
  /-- Field `diffFluxCoeff_` at a node. -/
  diffFluxCoeff : Entity → ℚ
  /-- Field `coordinates_` at a node. -/
  coordinates : Entity → Nat → ℚ
  /-- Field `exposed_area_vector` on a face. -/
  exposedAreaVec : Entity → Nat → ℚ
  /-- Field `nc_mass_flow_rate` on a face. -/
  ncMassFlowRate : Entity → Nat → ℚ
  /-- Library function `std::sqrt`. -/
  sqrt : ℚ → ℚ
  /-- List `nonConformalInfoVec_`, each entry given by its `dgInfoVec_`. -/
  nonConformalInfoVec_ : List (List (List DgInfo))

/-- Enumeration `NonConformalAlgType`; `other` is any value the switch does not
name. -/
inductive NonConformalAlgType where
  | NC_ALG_TYPE_DG
  | NC_ALG_TYPE_DS
  | NC_ALG_TYPE_RB
  | other (code : Nat)
  deriving DecidableEq, Repr

/-- The option members of the algorithm instance.  The header that declares
them is not part of the sources; `includeDivU_` is the value of
`realm_.get_divU()`, a factor of the `double` product at lines 432 and 460. -/
structure Algorithm where
  robinStyle_ : Bool
  dsFactor_ : ℚ
  upwindAdvection_ : Bool
  includeDivU_ : ℚ

/-- The constructor, lines 42-95: the member initialisers (`robinStyle_(false)`,
`dsFactor_(1.0)`, the two switches read from the realm) followed by the
`switch ( algType )`.  The case `NC_ALG_TYPE_RB` has no `break` and falls
through to `default`, which does nothing. -/
def construct (algType : NonConformalAlgType) (get_nc_alg_upwind_advection : Bool)
    (get_divU : ℚ) : Algorithm :=
  let init : Algorithm :=
    { robinStyle_ := false
      dsFactor_ := 1
      upwindAdvection_ := get_nc_alg_upwind_advection
      includeDivU_ := get_divU }
  match algType with
  | .NC_ALG_TYPE_DG => { init with dsFactor_ := 1, robinStyle_ := false }
  | .NC_ALG_TYPE_DS => { init with dsFactor_ := 0 }
  | .NC_ALG_TYPE_RB => { init with dsFactor_ := 1, robinStyle_ := true }
  | .other _ => init

/-- The buffers declared before the loops of `execute` (lines 119-163) that this
code writes entry by entry; they live across correspondences. -/
structure Scratch where
  lhs : List ℚ
  rhs : List ℚ
  connected_nodes : List Entity
  cNx : List ℚ
  oNx : List ℚ
  ws_c_face_velocity : List ℚ
  ws_o_face_velocity : List ℚ
  ws_c_elem_velocity : List ℚ
  ws_o_elem_velocity : List ℚ
  ws_c_elem_coordinates : List ℚ
  ws_o_elem_coordinates : List ℚ
  ws_c_diffFluxCoeff : List ℚ
  ws_o_diffFluxCoeff : List ℚ

/-- The buffers as declared at lines 119-163: empty vectors, the two normals
of size `nDim`. -/
def Scratch.fresh (nDim : Nat) : Scratch :=
  { lhs := []
    rhs := []
    connected_nodes := []
    cNx := List.replicate nDim 0
    oNx := List.replicate nDim 0
    ws_c_face_velocity := []
    ws_o_face_velocity := []
    ws_c_elem_velocity := []
    ws_o_elem_velocity := []
    ws_c_elem_coordinates := []
    ws_o_elem_coordinates := []
    ws_c_diffFluxCoeff := []
    ws_o_diffFluxCoeff := [] }

/-! ## The blocks of `execute` -/

/-- Lines 269-283 (current face, `base = 0`) and 289-303 (opposing face,
`base = current_num_face_nodes`): set the connected nodes and gather the
diffusivity and the velocity of the face nodes.  The state is
`(connected_nodes, p_diffFluxCoeff, p_face_velocity)`. -/
def gatherFace (R : Realm) (face_node_rels : List Entity) (base : Nat)
    (init : List Entity × List ℚ × List ℚ) : List Entity × List ℚ × List ℚ :=
  let num_face_nodes := face_node_rels.length
  forLoop num_face_nodes init fun s ni =>
    let node := face_node_rels.getD ni 0
    let uNp1 := R.velocityNp1 node
    (s.1.set (ni + base) node,
     s.2.1.set ni (R.diffFluxCoeff node),
     forLoop R.nDim s.2.2 fun fv i =>
       let offSet := i * num_face_nodes + ni
       fv.set offSet (uNp1 i))

/-- Lines 305-318 and 320-333: gather the velocity and the coordinates of the
parent element's nodes.  The state is `(p_elem_velocity, p_elem_coordinates)`. -/
def gatherElem (R : Realm) (elem_node_rels : List Entity)
    (init : List ℚ × List ℚ) : List ℚ × List ℚ :=
  let num_elem_nodes := elem_node_rels.length
  forLoop num_elem_nodes init fun s ni =>
    let node := elem_node_rels.getD ni 0
    let uNp1 := R.velocityNp1 node
    let coords := R.coordinates node
    let niNdim := ni * R.nDim
    forLoop R.nDim s fun t i =>
      (t.1.set (niNdim + i) (uNp1 i), t.2.set (niNdim + i) (coords i))

/-- Lines 340-350: the magnitudes `(c_amag, o_amag)` of the current area vector
at `currentGaussPointId` and of the opposing area vector at its first
integration point. -/
def areaMagnitudes (R : Realm) (c_areaVec o_areaVec : Nat → ℚ)
    (currentGaussPointId : Nat) : ℚ × ℚ :=
  let acc := forLoop R.nDim ((0 : ℚ), (0 : ℚ)) fun a j =>
    let c_axj := c_areaVec (currentGaussPointId * R.nDim + j)
    let o_axj := o_areaVec (0 * R.nDim + j)
    (a.1 + c_axj * c_axj, a.2 + o_axj * o_axj)
  (R.sqrt acc.1, R.sqrt acc.2)

/-- Lines 352-356: the two unit normals, written into `(p_cNx, p_oNx)`. -/
def computeNormals (R : Realm) (c_areaVec o_areaVec : Nat → ℚ)
    (currentGaussPointId : Nat) (c_amag o_amag : ℚ)
    (init : List ℚ × List ℚ) : List ℚ × List ℚ :=
  forLoop R.nDim init fun s i =>
    (s.1.set i (c_areaVec (currentGaussPointId * R.nDim + i) / c_amag),
     s.2.set i (o_areaVec (0 * R.nDim + i) / o_amag))

/-- Lines 369-379 and 381-391: the inverse length scale of one side. -/
def inverseLength (nDim num_face_nodes : Nat) (face_node_ordinals : List Nat)
    (p_Nx p_dndx : List ℚ) : ℚ :=
  forLoop num_face_nodes (0 : ℚ) fun acc ic =>
    let faceNodeNumber := face_node_ordinals.getD ic 0
    let offSetDnDx := faceNodeNumber * nDim
    forLoop nDim acc fun acc j =>
      let nxj := p_Nx.getD j 0
      let dndxj := p_dndx.getD (offSetDnDx + j) 0
      acc + dndxj * nxj

/-- Lines 420-446 and 448-474: the viscous stress of one side at the point,
accumulated in the local array `double DiffFluxBip[3] = {0.0,0.0,0.0}`. -/
def diffFluxBip (nDim nodesPerElement : Nat) (includeDivU_ diffFluxCoeffBip : ℚ)
    (p_Nx p_dndx p_elem_velocity : List ℚ) : List ℚ :=
  forLoop nodesPerElement [0, 0, 0] fun flux ic =>
    let offSetDnDx := ic * nDim
    forLoop nDim flux fun flux j =>
      let nxj := p_Nx.getD j 0
      let dndxj := p_dndx.getD (offSetDnDx + j) 0
      let uxj := p_elem_velocity.getD (ic * nDim + j) 0
      let divUstress := 2 / 3 * diffFluxCoeffBip * dndxj * uxj * nxj * includeDivU_
      forLoop nDim flux fun flux i =>
        let dndxi := p_dndx.getD (offSetDnDx + i) 0
        let uxi := p_elem_velocity.getD (ic * nDim + i) 0
        let flux1 :=
          flux.set i (flux.getD i 0 + (-diffFluxCoeffBip * dndxj * nxj * uxi + divUstress))
        flux1.set i (flux1.getD i 0 + -diffFluxCoeffBip * dndxi * nxj * uxj)

/-- Lines 476-480: one of the two loops `p[k] = 0.0` for `k < size`. -/
def zeroFill (size : Nat) (p : List ℚ) : List ℚ :=
  forLoop size p fun p k => p.set k 0

/-- Lines 485-487: the penalty coefficient. -/
def penaltyIp (currentDiffFluxCoeffBip currentInverseLength opposingDiffFluxCoeffBip
    opposingInverseLength tmdot : ℚ) : ℚ :=
  1 / 2 * (currentDiffFluxCoeffBip * currentInverseLength
      + opposingDiffFluxCoeffBip * opposingInverseLength)
    + |tmdot| / 2

/-- Lines 491-493: the non-conformal diffusive flux of one component. -/
def ncDiffFlux (robinStyle_ : Bool) (currentDiffFluxBip_i opposingDiffFluxBip_i : ℚ) : ℚ :=
  if robinStyle_ then -opposingDiffFluxBip_i
  else 1 / 2 * (currentDiffFluxBip_i - opposingDiffFluxBip_i)

/-- Lines 495-498: the non-conformal advective flux of one component. -/
def ncAdv (upwindAdvection_ robinStyle_ : Bool) (tmdot currentUBip_i opposingUBip_i : ℚ) : ℚ :=
  let upwindUBip := if tmdot > 0 then currentUBip_i else opposingUBip_i
  if upwindAdvection_ then tmdot * upwindUBip
  else if robinStyle_ then tmdot * opposingUBip_i
  else 1 / 2 * tmdot * (currentUBip_i + opposingUBip_i)

/-- Line 502: the value subtracted from `p_rhs[indexR]` for component `i`. -/
def rhsTerm (alg : Algorithm) (penalty c_amag tmdot : ℚ)
    (currentDiffFluxBip opposingDiffFluxBip currentUBip opposingUBip : List ℚ) (i : Nat) : ℚ :=
  (alg.dsFactor_ * ncDiffFlux alg.robinStyle_ (currentDiffFluxBip.getD i 0)
        (opposingDiffFluxBip.getD i 0)
      + penalty * (currentUBip.getD i 0 - opposingUBip.getD i 0)) * c_amag
    + ncAdv alg.upwindAdvection_ alg.robinStyle_ tmdot (currentUBip.getD i 0)
        (opposingUBip.getD i 0)

/-- Lines 489-523: the loop over the components, on the state `(p_rhs, p_lhs)`.
The two shape-function vectors are what `general_shape_fcn` returns at lines
509 and 517. -/
def assemble (nDim currentNodesPerFace opposingNodesPerFace currentGaussPointId : Nat)
    (alg : Algorithm) (penalty c_amag tmdot : ℚ)
    (currentDiffFluxBip opposingDiffFluxBip currentUBip opposingUBip : List ℚ)
    (p_c_general_shape_function p_o_general_shape_function : List ℚ)
    (init : List ℚ × List ℚ) : List ℚ × List ℚ :=
  forLoop nDim init fun s i =>
    let indexR := currentGaussPointId * nDim + i
    let rowR := indexR * (currentNodesPerFace + opposingNodesPerFace) * nDim
    let lhsFac := penalty * c_amag
    let lhs1 := forLoop currentNodesPerFace s.2 fun lhs ic =>
      let r := p_c_general_shape_function.getD ic 0
      let nn := ic
      lhs.set (rowR + nn * nDim + i) (lhs.getD (rowR + nn * nDim + i) 0 + r * lhsFac)
    let lhs2 := forLoop opposingNodesPerFace lhs1 fun lhs ic =>
      let r := p_o_general_shape_function.getD ic 0
      let nn := ic + currentNodesPerFace
      lhs.set (rowR + nn * nDim + i) (lhs.getD (rowR + nn * nDim + i) 0 - r * lhsFac)
    (s.1.set indexR (s.1.getD indexR 0
        - rhsTerm alg penalty c_amag tmdot currentDiffFluxBip opposingDiffFluxBip
            currentUBip opposingUBip i),
     lhs2)

/-- The values of one pass of the loop body (lines 188-524) that the
statements below name, and the buffers it leaves behind.  The block handed to
`apply_coeff` at line 524 is `(scratch.connected_nodes, scratch.rhs,
scratch.lhs)`. -/
structure Pass where
  currentNodesPerFace : Nat
  opposingNodesPerFace : Nat
  currentNodesPerElement : Nat
  opposingNodesPerElement : Nat
  lhsSize : Nat
  rhsSize : Nat
  c_amag : ℚ
  o_amag : ℚ
  ws_c_dndx : List ℚ
  ws_o_dndx : List ℚ
  currentInverseLength : ℚ
  opposingInverseLength : ℚ
  currentUBip : List ℚ
  opposingUBip : List ℚ
  currentDiffFluxCoeffBip : ℚ
  opposingDiffFluxCoeffBip : ℚ
  currentDiffFluxBip : List ℚ
  opposingDiffFluxBip : List ℚ
  tmdot : ℚ
  penaltyIp : ℚ
  ws_c_general_shape_function : List ℚ
  ws_o_general_shape_function : List ℚ
  scratch : Scratch

/-- The body of the innermost loop of `execute`, lines 188-524, for one
`DgInfo`, started on the buffers `s` left by the previous pass. -/
def processDgInfo (R : Realm) (alg : Algorithm) (s : Scratch) (dgInfo : DgInfo) : Pass :=
  let nDim := R.nDim
  -- lines 207-215
  let currentGaussPointId := dgInfo.currentGaussPointId_
  let currentIsoParCoords := dgInfo.currentIsoParCoords_
  let opposingIsoParCoords := dgInfo.opposingIsoParCoords_
  let currentNodesPerFace := dgInfo.meFCCurrent_.nodesPerElement_
  let opposingNodesPerFace := dgInfo.meFCOpposing_.nodesPerElement_
  let currentNodesPerElement := dgInfo.meSCSCurrent_.nodesPerElement_
  let opposingNodesPerElement := dgInfo.meSCSOpposing_.nodesPerElement_
  -- lines 217-244
  let lhsSize := (currentNodesPerFace + opposingNodesPerFace) * nDim
    * (currentNodesPerFace + opposingNodesPerFace) * nDim
  let rhsSize := (currentNodesPerFace + opposingNodesPerFace) * nDim
  let lhs0 := resize s.lhs lhsSize 0
  let rhs0 := resize s.rhs rhsSize 0
  let connected_nodes0 := resize s.connected_nodes (currentNodesPerFace + opposingNodesPerFace) 0
  let c_elem_velocity0 := resize s.ws_c_elem_velocity (currentNodesPerElement * nDim) 0
  let o_elem_velocity0 := resize s.ws_o_elem_velocity (opposingNodesPerElement * nDim) 0
  let c_elem_coordinates0 := resize s.ws_c_elem_coordinates (currentNodesPerElement * nDim) 0
  let o_elem_coordinates0 := resize s.ws_o_elem_coordinates (opposingNodesPerElement * nDim) 0
  let c_face_velocity0 := resize s.ws_c_face_velocity (currentNodesPerFace * nDim) 0
  let o_face_velocity0 := resize s.ws_o_face_velocity (opposingNodesPerFace * nDim) 0
  let c_diffFluxCoeff0 := resize s.ws_c_diffFluxCoeff currentNodesPerFace 0
  let o_diffFluxCoeff0 := resize s.ws_o_diffFluxCoeff opposingNodesPerFace 0
  -- lines 265-303
  let ws_c_face_node_ordinals :=
    dgInfo.currentElementTopo_.side_node_ordinals dgInfo.currentFaceOrdinal_
  let current_face_node_rels := R.begin_nodes dgInfo.currentFace_
  let current_num_face_nodes := current_face_node_rels.length
  let gc := gatherFace R current_face_node_rels 0
    (connected_nodes0, c_diffFluxCoeff0, c_face_velocity0)
  let ws_o_face_node_ordinals :=
    dgInfo.opposingElementTopo_.side_node_ordinals dgInfo.opposingFaceOrdinal_
  let opposing_face_node_rels := R.begin_nodes dgInfo.opposingFace_
  let opposing_num_face_nodes := opposing_face_node_rels.length
  let go := gatherFace R opposing_face_node_rels current_num_face_nodes
    (gc.1, o_diffFluxCoeff0, o_face_velocity0)
  -- lines 305-333
  let ec := gatherElem R (R.begin_nodes dgInfo.currentElement_)
    (c_elem_velocity0, c_elem_coordinates0)
  let eo := gatherElem R (R.begin_nodes dgInfo.opposingElement_)
    (o_elem_velocity0, o_elem_coordinates0)
  -- lines 335-356
  let c_areaVec := R.exposedAreaVec dgInfo.currentFace_
  let o_areaVec := R.exposedAreaVec dgInfo.opposingFace_
  let ncMassFlowRate := R.ncMassFlowRate dgInfo.currentFace_
  let amag := areaMagnitudes R c_areaVec o_areaVec currentGaussPointId
  let nx := computeNormals R c_areaVec o_areaVec currentGaussPointId amag.1 amag.2 (s.cNx, s.oNx)
  -- lines 358-367
  let currentElementIsoParCoords :=
    dgInfo.meSCSCurrent_.sidePcoords_to_elemPcoords dgInfo.currentFaceOrdinal_ currentIsoParCoords
  let opposingElementIsoParCoords :=
    dgInfo.meSCSOpposing_.sidePcoords_to_elemPcoords dgInfo.opposingFaceOrdinal_
      opposingIsoParCoords
  let p_c_dndx := dgInfo.meSCSCurrent_.general_face_grad_op dgInfo.currentFaceOrdinal_
    currentElementIsoParCoords ec.2
  let p_o_dndx := dgInfo.meSCSOpposing_.general_face_grad_op dgInfo.opposingFaceOrdinal_
    opposingElementIsoParCoords eo.2
  -- lines 369-391
  let currentInverseLength :=
    inverseLength nDim current_num_face_nodes ws_c_face_node_ordinals nx.1 p_c_dndx
  let opposingInverseLength :=
    inverseLength nDim opposing_num_face_nodes ws_o_face_node_ordinals nx.2 p_o_dndx
  -- lines 393-418
  let sizeOfScalarField := 1
  let sizeOfVectorField := nDim
  let currentUBip :=
    dgInfo.meFCCurrent_.interpolatePoint sizeOfVectorField dgInfo.currentIsoParCoords_ gc.2.2
  let opposingUBip :=
    dgInfo.meFCOpposing_.interpolatePoint sizeOfVectorField dgInfo.opposingIsoParCoords_ go.2.2
  let currentDiffFluxCoeffBip :=
    (dgInfo.meFCCurrent_.interpolatePoint sizeOfScalarField dgInfo.currentIsoParCoords_
      gc.2.1).getD 0 0
  let opposingDiffFluxCoeffBip :=
    (dgInfo.meFCOpposing_.interpolatePoint sizeOfScalarField dgInfo.opposingIsoParCoords_
      go.2.1).getD 0 0
  -- lines 420-474
  let currentDiffFluxBip := diffFluxBip nDim currentNodesPerElement alg.includeDivU_
    currentDiffFluxCoeffBip nx.1 p_c_dndx ec.1
  let opposingDiffFluxBip := diffFluxBip nDim opposingNodesPerElement alg.includeDivU_
    opposingDiffFluxCoeffBip nx.2 p_o_dndx eo.1
  -- lines 476-480
  let lhs1 := zeroFill lhsSize lhs0
  let rhs1 := zeroFill rhsSize rhs0
  -- lines 482-487
  let tmdot := ncMassFlowRate currentGaussPointId
  let penalty := penaltyIp currentDiffFluxCoeffBip currentInverseLength
    opposingDiffFluxCoeffBip opposingInverseLength tmdot
  -- lines 489-523
  let p_c_general_shape_function := dgInfo.meFCCurrent_.general_shape_fcn currentIsoParCoords
  let p_o_general_shape_function := dgInfo.meFCOpposing_.general_shape_fcn opposingIsoParCoords
  let out := assemble nDim currentNodesPerFace opposingNodesPerFace currentGaussPointId alg
    penalty amag.1 tmdot currentDiffFluxBip opposingDiffFluxBip currentUBip opposingUBip
    p_c_general_shape_function p_o_general_shape_function (rhs1, lhs1)
  { currentNodesPerFace := currentNodesPerFace
    opposingNodesPerFace := opposingNodesPerFace
    currentNodesPerElement := currentNodesPerElement
    opposingNodesPerElement := opposingNodesPerElement
    lhsSize := lhsSize
    rhsSize := rhsSize
    c_amag := amag.1
    o_amag := amag.2
    ws_c_dndx := p_c_dndx
    ws_o_dndx := p_o_dndx
    currentInverseLength := currentInverseLength
    opposingInverseLength := opposingInverseLength
    currentUBip := currentUBip
    opposingUBip := opposingUBip
    currentDiffFluxCoeffBip := currentDiffFluxCoeffBip
    opposingDiffFluxCoeffBip := opposingDiffFluxCoeffBip
    currentDiffFluxBip := currentDiffFluxBip
    opposingDiffFluxBip := opposingDiffFluxBip
    tmdot := tmdot
    penaltyIp := penalty
    ws_c_general_shape_function := p_c_general_shape_function
    ws_o_general_shape_function := p_o_general_shape_function
    scratch :=
      { lhs := out.2
        rhs := out.1
        connected_nodes := go.1
        cNx := nx.1
        oNx := nx.2
        ws_c_face_velocity := gc.2.2
        ws_o_face_velocity := go.2.2
        ws_c_elem_velocity := ec.1
        ws_o_elem_velocity := eo.1
        ws_c_elem_coordinates := ec.2
        ws_o_elem_coordinates := eo.2
        ws_c_diffFluxCoeff := gc.2.1
        ws_o_diffFluxCoeff := go.2.1 } }

/-- One call `apply_coeff(connected_nodes, rhs, lhs, __FILE__)`. -/
structure Block where
  connected_nodes : List Entity
  rhs : List ℚ
  lhs : List ℚ

/-- The block that a pass hands to `apply_coeff` (line 524). -/
def Pass.block (p : Pass) : Block :=
  { connected_nodes := p.scratch.connected_nodes
    rhs := p.scratch.rhs
    lhs := p.scratch.lhs }

/-- Method `execute`, lines 172-527: the three nested loops over
`nonConformalInfoVec_`, each `dgInfoVec_` and each face's `DgInfo` list.  The
state is the buffers and the list of `apply_coeff` calls made so far. -/
def execute (R : Realm) (alg : Algorithm) : List Block :=
  (R.nonConformalInfoVec_.foldl
    (fun st dgInfoVec =>
      dgInfoVec.foldl
        (fun st faceDgInfoVec =>
          faceDgInfoVec.foldl
            (fun st dgInfo =>
              let p := processDgInfo R alg st.1 dgInfo
              (p.scratch, st.2 ++ [p.block]))
            st)
        st)
    (Scratch.fresh R.nDim, [])).2

/-! ## Buffers that a loop overwrites -/

/-- The step `body` on a buffer writes, at every index in `W`, a value that
does not depend on the buffer's previous contents: two buffers of the same
length that agree on some set of indices `P` have, after the step, the same
length and agree on `P` and on `W`. -/
def Overwrites {α : Type} (body : List α → List α) (W : Nat → Prop) : Prop :=
  ∀ (l1 l2 : List α) (P : Nat → Prop), l1.length = l2.length →
    (∀ q, P q → l1[q]? = l2[q]?) →
    (body l1).length = (body l2).length ∧ ∀ q, (P q ∨ W q) → (body l1)[q]? = (body l2)[q]?

/-! ## A concrete conformal pairing

Two unit squares meet along the line `x = 1`: the current element `100` is
`[0,1] × [0,1]` with nodes `1:(0,0)`, `2:(1,0)`, `3:(1,1)`, `4:(0,1)`, the
opposing element `200` is `[1,2] × [0,1]` with nodes `5:(1,0)`, `6:(2,0)`,
`7:(2,1)`, `8:(1,1)`.  The current face `10` is side 1 of element `100` (nodes
`2, 3`), the opposing face `20` is side 3 of element `200` (nodes `8, 5`).
Both sides carry the velocity field `u(x, y) = (x, 0)` and the diffusivity `1`;
the mass-flow rate is zero.  The pairing is the first integration point of the
current face, the point `(1, 1/4)`. -/

/-- Square root on the rationals that are squares of rationals. -/
def ratSqrt (q : ℚ) : ℚ := (Nat.sqrt q.num.natAbs : ℚ) / (Nat.sqrt q.den : ℚ)

/-- The face master element of a two-node edge: linear interpolation on the
parametric range `[-1, 1]`, field layout `field[i*nodesPerElement + node]`. -/
def edge2 : MasterElement :=
  { nodesPerElement_ := 2
    interpolatePoint := fun nComp isoParCoord field =>
      let xi := isoParCoord.getD 0 0 * (1 / 2)
      (List.range nComp).map fun i =>
        (1 / 2 - xi) * field.getD (i * 2) 0 + (1 / 2 + xi) * field.getD (i * 2 + 1) 0
    general_shape_fcn := fun isoParCoord =>
      let xi := isoParCoord.getD 0 0 * (1 / 2)
      [1 / 2 - xi, 1 / 2 + xi]
    sidePcoords_to_elemPcoords := fun _ _ => []
    general_face_grad_op := fun _ _ _ => [] }

/-- The element master element of a four-node quadrilateral whose gradient
operator at the paired point is the table `dndx` (layout `dndx[node*nDim + j]`). -/
def quad4 (dndx : List ℚ) : MasterElement :=
  { nodesPerElement_ := 4
    interpolatePoint := fun _ _ _ => []
    general_shape_fcn := fun _ => []
    sidePcoords_to_elemPcoords := fun _ side_pcoords => side_pcoords
    general_face_grad_op := fun _ _ _ => dndx }

/-- The side-node ordinals of a quadrilateral: side `k` joins the local nodes
`k` and `k+1` (modulo 4). -/
def quadTopo : Topology :=
  { side_node_ordinals := fun k => [k % 4, (k + 1) % 4] }

/-- The pairing of face `10` with face `20` at the point `(1, 1/4)`.  The
gradient tables are those of the bilinear basis of each unit square there. -/
def exDg : DgInfo :=
  { currentFace_ := 10
    opposingFace_ := 20
    currentElement_ := 100
    opposingElement_ := 200
    currentElementTopo_ := quadTopo
    opposingElementTopo_ := quadTopo
    currentFaceOrdinal_ := 1
    opposingFaceOrdinal_ := 3
    meFCCurrent_ := edge2
    meFCOpposing_ := edge2
    meSCSCurrent_ := quad4 [-3/4, 0, 3/4, -1, 1/4, 1, -1/4, 0]
    meSCSOpposing_ := quad4 [-3/4, -1, 3/4, 0, 1/4, 0, -1/4, 1]
    currentGaussPointId_ := 0
    currentIsoParCoords_ := [-1/2]
    opposingIsoParCoords_ := [1/2] }

/-- A three-node face master element (its interpolation takes the first node). -/
def edge3 : MasterElement :=
  { nodesPerElement_ := 3
    interpolatePoint := fun nComp _ field => (List.range nComp).map fun i => field.getD (i * 3) 0
    general_shape_fcn := fun _ => [1, 0, 0]
    sidePcoords_to_elemPcoords := fun _ _ => []
    general_face_grad_op := fun _ _ _ => [] }

/-- A pairing of other sizes: the three-node faces `30` and `40` of the
nine-node elements `300` and `400`, second integration point. -/
def exDgA : DgInfo :=
  { currentFace_ := 30
    opposingFace_ := 40
    currentElement_ := 300
    opposingElement_ := 400
    currentElementTopo_ := { side_node_ordinals := fun _ => [0, 1, 4] }
    opposingElementTopo_ := { side_node_ordinals := fun _ => [2, 3, 6] }
    currentFaceOrdinal_ := 0
    opposingFaceOrdinal_ := 2
    meFCCurrent_ := edge3
    meFCOpposing_ := edge3
    meSCSCurrent_ := { quad4 (List.replicate 18 1) with nodesPerElement_ := 9 }
    meSCSOpposing_ := { quad4 (List.replicate 18 1) with nodesPerElement_ := 9 }
    currentGaussPointId_ := 1
    currentIsoParCoords_ := [0]
    opposingIsoParCoords_ := [0] }

/-- The mesh and the fields of the two unit squares (and the node lists of the
larger pairing `exDgA`). -/
def exRealm : Realm :=
  { nDim := 2
    begin_nodes := fun e =>
      if e = 10 then [2, 3] else if e = 20 then [8, 5]
      else if e = 100 then [1, 2, 3, 4] else if e = 200 then [5, 6, 7, 8]
      else if e = 30 then [11, 12, 13] else if e = 40 then [21, 22, 23]
      else if e = 300 then [11, 12, 13, 14, 15, 16, 17, 18, 19]
      else if e = 400 then [21, 22, 23, 24, 25, 26, 27, 28, 29] else []
    velocityNp1 := fun node i =>
      if i = 0 then ([0, 0, 1, 1, 0, 1, 2, 2, 1] : List ℚ).getD node 3 else 0
    diffFluxCoeff := fun _ => 1
    coordinates := fun node i =>
      if i = 0 then ([0, 0, 1, 1, 0, 1, 2, 2, 1] : List ℚ).getD node 0
      else ([0, 0, 0, 1, 1, 0, 0, 1, 1] : List ℚ).getD node 0
    exposedAreaVec := fun e k =>
      if e = 10 then ([1/2, 0, 1/2, 0] : List ℚ).getD k 0
      else if e = 20 then ([-1/2, 0, -1/2, 0] : List ℚ).getD k 0
      else ([1, 0, 1, 0, 1, 0] : List ℚ).getD k 0
    ncMassFlowRate := fun e _ => if e = 10 then 0 else 2
    sqrt := ratSqrt
    nonConformalInfoVec_ := [[[exDgA], [exDg]]] }

/-- The dg policy without upwinding and without the divergence term. -/
def exAlg : Algorithm := construct .NC_ALG_TYPE_DG false 0

/-- The pass over the conformal pairing, on fresh buffers. -/
def exPass : Pass := processDgInfo exRealm exAlg (Scratch.fresh 2) exDg

/-- The mesh of the two unit squares with the current face `10` collapsed: its
area vector is zero at both integration points.  The conformal pairing is the
only correspondence registered. -/
def exZeroRealm : Realm :=
  { exRealm with
    exposedAreaVec := fun e k => if e = 10 then 0 else exRealm.exposedAreaVec e k
    nonConformalInfoVec_ := [[[exDg]]] }

/-! ## Loops and buffers: general facts -/

theorem forLoop_zero {σ : Type} (init : σ) (body : σ → Nat → σ) :
    forLoop 0 init body = init := by
  simp [forLoop]

theorem forLoop_succ {σ : Type} (n : Nat) (init : σ) (body : σ → Nat → σ) :
    forLoop (n + 1) init body = body (forLoop n init body) n := by
  simp [forLoop, List.range_succ, List.foldl_append]

/-- Loop invariant rule. -/
theorem forLoop_invariant {σ : Type} (P : Nat → σ → Prop) (n : Nat) (init : σ)
    (body : σ → Nat → σ) (h0 : P 0 init)
    (hstep : ∀ k s, k < n → P k s → P (k + 1) (body s k)) :
    P n (forLoop n init body) := by
  induction n with
  | zero => simpa [forLoop_zero] using h0
  | succ m ih =>
    rw [forLoop_succ]
    exact hstep m _ (Nat.lt_succ_self m)
      (ih (fun k s hk hs => hstep k s (Nat.lt_succ_of_lt hk) hs))

/-- Relational loop invariant rule: two runs of the same loop body. -/
theorem forLoop_invariant₂ {σ : Type} (P : Nat → σ → σ → Prop) (n : Nat) (a b : σ)
    (body : σ → Nat → σ) (h0 : P 0 a b)
    (hstep : ∀ k s t, k < n → P k s t → P (k + 1) (body s k) (body t k)) :
    P n (forLoop n a body) (forLoop n b body) := by
  induction n with
  | zero => simpa [forLoop_zero] using h0
  | succ m ih =>
    rw [forLoop_succ, forLoop_succ]
    exact hstep m _ _ (Nat.lt_succ_self m)
      (ih (fun k s t hk hs => hstep k s t (Nat.lt_succ_of_lt hk) hs))

/-- A loop whose body acts on the two components of a pair independently. -/
theorem forLoop_prod {α β : Type} (n : Nat) (a : α) (b : β) (f : α → Nat → α)
    (g : β → Nat → β) :
    forLoop n (a, b) (fun s k => (f s.1 k, g s.2 k)) = (forLoop n a f, forLoop n b g) := by
  induction n with
  | zero => simp [forLoop_zero]
  | succ m ih => simp [forLoop_succ, ih]

theorem getD_set (l : List ℚ) (q p : Nat) (x : ℚ) :
    (l.set q x).getD p 0 = if p = q ∧ q < l.length then x else l.getD p 0 := by
  simp only [List.getD_eq_getElem?_getD, List.getElem?_set]
  by_cases hpq : q = p
  · subst hpq
    by_cases hq : q < l.length
    · simp [hq]
    · simp [hq, List.getElem?_eq_none (Nat.le_of_not_lt hq)]
  · have hqp : ¬ p = q := fun h => hpq h.symm
    simp [hpq, hqp]

theorem getD_of_length_le (l : List ℚ) (p : Nat) (h : l.length ≤ p) : l.getD p 0 = 0 := by
  simp [List.getD_eq_getElem?_getD, List.getElem?_eq_none h]

theorem length_resize {α : Type} (v : List α) (n : Nat) (z : α) :
    (resize v n z).length = n := by
  simp only [resize, List.length_append, List.length_take, List.length_replicate]
  omega

/-- A loop that accumulates into a scalar adds up its increments. -/
theorem forLoop_add_sum (n : Nat) (a : ℚ) (t : Nat → ℚ) :
    forLoop n a (fun acc k => acc + t k) = a + ∑ k ∈ Finset.range n, t k := by
  induction n with
  | zero => simp [forLoop_zero]
  | succ m ih => rw [forLoop_succ, ih, Finset.sum_range_succ]; ring

/-- A loop over a buffer whose body keeps the length keeps the length. -/
theorem forLoop_length {α : Type} (body : List α → Nat → List α)
    (hlen : ∀ l k, (body l k).length = l.length) (n : Nat) (l : List α) :
    (forLoop n l body).length = l.length := by
  induction n with
  | zero => simp [forLoop_zero]
  | succ m ih => rw [forLoop_succ, hlen, ih]

/-- A loop over a buffer whose body adds `δ k p` to entry `p` adds up the
increments entry by entry. -/
theorem forLoop_getD_sum (body : List ℚ → Nat → List ℚ) (δ : Nat → Nat → ℚ)
    (hlen : ∀ l k, (body l k).length = l.length)
    (h : ∀ l k p, p < l.length → (body l k).getD p 0 = l.getD p 0 + δ k p)
    (n : Nat) (l : List ℚ) (p : Nat) (hp : p < l.length) :
    (forLoop n l body).getD p 0 = l.getD p 0 + ∑ k ∈ Finset.range n, δ k p := by
  induction n with
  | zero => simp [forLoop_zero]
  | succ m ih =>
    rw [forLoop_succ, h _ _ _ (by rw [forLoop_length body hlen]; exact hp), ih,
      Finset.sum_range_succ]
    ring

/-- Lines 476-480 leave a buffer of the given size with every entry zero. -/
theorem zeroFill_eq (size : Nat) (p : List ℚ) (hp : p.length = size) :
    zeroFill size p = List.replicate size 0 := by
  have key : ∀ n, n ≤ size →
      (forLoop n p (fun p k => p.set k 0)).length = size ∧
      ∀ q, q < n → (forLoop n p (fun p k => p.set k 0)).getD q 0 = 0 := by
    intro n
    induction n with
    | zero => intro _; simp [forLoop_zero, hp]
    | succ m ih =>
      intro hm
      obtain ⟨hl, hz⟩ := ih (Nat.le_of_succ_le hm)
      rw [forLoop_succ]
      refine ⟨by simp [hl], fun q hq => ?_⟩
      rw [getD_set]
      by_cases hqm : q = m
      · simp [hqm, hl]; omega
      · have hlt : q < m := by omega
        rw [if_neg (fun h => hqm h.1)]
        exact hz q hlt
  obtain ⟨hl, hz⟩ := key size (Nat.le_refl size)
  apply List.ext_getElem
  · simp [zeroFill, hl]
  · intro q h1 h2
    have h3 : q < size := by simpa using h2
    have := hz q h3
    rw [List.getD_eq_getElem?_getD, List.getElem?_eq_getElem (by simpa [zeroFill] using h1)] at this
    simpa [zeroFill] using this

theorem getD_set_add (l : List ℚ) (q p : Nat) (x : ℚ) (hp : p < l.length) :
    (l.set q (l.getD q 0 + x)).getD p 0 = l.getD p 0 + if p = q then x else 0 := by
  rw [getD_set]
  by_cases h : p = q
  · subst h; simp [hp]
  · simp [h]

theorem getD_set_sub (l : List ℚ) (q p : Nat) (x : ℚ) (hp : p < l.length) :
    (l.set q (l.getD q 0 - x)).getD p 0 = l.getD p 0 + if p = q then -x else 0 := by
  rw [sub_eq_add_neg]
  exact getD_set_add l q p (-x) hp

/-! ## The assembly loop (lines 489-523) -/

/-- The loop over the components updates the residual and the Jacobian
independently of each other. -/
theorem assemble_eq (nDim Nc No gp : Nat) (alg : Algorithm) (pen amag tmdot : ℚ)
    (cF oF cU oU sc so rhs lhs : List ℚ) :
    assemble nDim Nc No gp alg pen amag tmdot cF oF cU oU sc so (rhs, lhs) =
      (forLoop nDim rhs (fun rhs i =>
          rhs.set (gp * nDim + i)
            (rhs.getD (gp * nDim + i) 0 - rhsTerm alg pen amag tmdot cF oF cU oU i)),
       forLoop nDim lhs (fun lhs i =>
          forLoop No
            (forLoop Nc lhs (fun lhs ic =>
              lhs.set ((gp * nDim + i) * (Nc + No) * nDim + ic * nDim + i)
                (lhs.getD ((gp * nDim + i) * (Nc + No) * nDim + ic * nDim + i) 0
                  + sc.getD ic 0 * (pen * amag))))
            (fun lhs ic =>
              lhs.set ((gp * nDim + i) * (Nc + No) * nDim + (ic + Nc) * nDim + i)
                (lhs.getD ((gp * nDim + i) * (Nc + No) * nDim + (ic + Nc) * nDim + i) 0
                  - so.getD ic 0 * (pen * amag))))) := by
  unfold assemble
  exact forLoop_prod nDim rhs lhs
    (fun rhs i =>
      rhs.set (gp * nDim + i)
        (rhs.getD (gp * nDim + i) 0 - rhsTerm alg pen amag tmdot cF oF cU oU i))
    (fun lhs i =>
      forLoop No
        (forLoop Nc lhs (fun lhs ic =>
          lhs.set ((gp * nDim + i) * (Nc + No) * nDim + ic * nDim + i)
            (lhs.getD ((gp * nDim + i) * (Nc + No) * nDim + ic * nDim + i) 0
              + sc.getD ic 0 * (pen * amag))))
        (fun lhs ic =>
          lhs.set ((gp * nDim + i) * (Nc + No) * nDim + (ic + Nc) * nDim + i)
            (lhs.getD ((gp * nDim + i) * (Nc + No) * nDim + (ic + Nc) * nDim + i) 0
              - so.getD ic 0 * (pen * amag))))

/-- The residual after the loop over the components, started from zeros: entry
`gp*d + i` holds minus the term of component `i`, every other entry is zero. -/
theorem rhs_loop (n d g : Nat) (t : Nat → ℚ) :
    (forLoop d (List.replicate n 0) (fun rhs i =>
        rhs.set (g * d + i) (rhs.getD (g * d + i) 0 - t i))).length = n ∧
    ∀ q, (forLoop d (List.replicate n 0) (fun rhs i =>
        rhs.set (g * d + i) (rhs.getD (g * d + i) 0 - t i))).getD q 0
      = if g * d ≤ q ∧ q < g * d + d ∧ q < n then -(t (q - g * d)) else 0 := by
  refine forLoop_invariant
    (fun k (l : List ℚ) => l.length = n ∧
      ∀ q, l.getD q 0 = if g * d ≤ q ∧ q < g * d + k ∧ q < n then -(t (q - g * d)) else 0)
    d _ _ ⟨by simp, fun q => ?_⟩ ?_
  · have hz : (List.replicate n (0 : ℚ)).getD q 0 = 0 := by
      by_cases hq : q < n
      · rw [List.getD_eq_getElem?_getD, List.getElem?_eq_getElem (by simpa using hq)]
        simp
      · exact getD_of_length_le _ _ (by simpa using Nat.le_of_not_lt hq)
    rw [hz, if_neg (by omega)]
  · rintro k l _ ⟨hl, hq⟩
    refine ⟨by rw [List.length_set, hl], fun q => ?_⟩
    rw [getD_set, hl]
    by_cases h1 : q = g * d + k ∧ g * d + k < n
    · obtain ⟨h1a, h1b⟩ := h1
      subst h1a
      rw [if_pos ⟨rfl, h1b⟩, hq, if_neg (by omega), if_pos (by omega)]
      have : g * d + k - g * d = k := by omega
      rw [this]; ring
    · rw [if_neg h1, hq]
      by_cases h2 : g * d ≤ q ∧ q < g * d + k ∧ q < n
      · rw [if_pos h2, if_pos (by omega)]
      · rw [if_neg h2, if_neg (by omega)]

/-! ## One pass of the loop body -/

/-- The residual and the Jacobian of a pass are what the assembly loop makes of
the resized and zeroed buffers. -/
theorem pass_out (R : Realm) (alg : Algorithm) (s : Scratch) (dg : DgInfo) :
    ((processDgInfo R alg s dg).scratch.rhs, (processDgInfo R alg s dg).scratch.lhs) =
      assemble R.nDim (processDgInfo R alg s dg).currentNodesPerFace
        (processDgInfo R alg s dg).opposingNodesPerFace dg.currentGaussPointId_ alg
        (processDgInfo R alg s dg).penaltyIp (processDgInfo R alg s dg).c_amag
        (processDgInfo R alg s dg).tmdot (processDgInfo R alg s dg).currentDiffFluxBip
        (processDgInfo R alg s dg).opposingDiffFluxBip (processDgInfo R alg s dg).currentUBip
        (processDgInfo R alg s dg).opposingUBip
        (processDgInfo R alg s dg).ws_c_general_shape_function
        (processDgInfo R alg s dg).ws_o_general_shape_function
        (zeroFill (processDgInfo R alg s dg).rhsSize
            (resize s.rhs (processDgInfo R alg s dg).rhsSize 0),
         zeroFill (processDgInfo R alg s dg).lhsSize
            (resize s.lhs (processDgInfo R alg s dg).lhsSize 0)) :=
  rfl

/-- The residual of a pass: the loop over the components run on zeros. -/
theorem pass_rhs (R : Realm) (alg : Algorithm) (s : Scratch) (dg : DgInfo) :
    (processDgInfo R alg s dg).scratch.rhs =
      forLoop R.nDim
        (List.replicate
          ((dg.meFCCurrent_.nodesPerElement_ + dg.meFCOpposing_.nodesPerElement_) * R.nDim) 0)
        (fun rhs i =>
          rhs.set (dg.currentGaussPointId_ * R.nDim + i)
            (rhs.getD (dg.currentGaussPointId_ * R.nDim + i) 0
              - rhsTerm alg (processDgInfo R alg s dg).penaltyIp
                  (processDgInfo R alg s dg).c_amag (processDgInfo R alg s dg).tmdot
                  (processDgInfo R alg s dg).currentDiffFluxBip
                  (processDgInfo R alg s dg).opposingDiffFluxBip
                  (processDgInfo R alg s dg).currentUBip
                  (processDgInfo R alg s dg).opposingUBip i)) := by
  have h := congrArg Prod.fst (pass_out R alg s dg)
  rw [assemble_eq] at h
  simp only at h
  rw [h, zeroFill_eq _ _ (length_resize _ _ _)]
  rfl

/-! ## The Jacobian loop -/

/-- Position of column `nn*d + i` of row `g*d + i` in the flat Jacobian, as
line 505 and lines 513, 521 compute it. -/
theorem lhs_index (g d M nn i : Nat) :
    (g * d + i) * M * d + nn * d + i = (g * d + i) * (M * d) + (nn * d + i) := by
  ring

/-- Two positions written by the Jacobian loop coincide only when they belong
to the same component and the same node. -/
theorem lhs_index_inj (g d M i nn j mm : Nat) (hi : i < d) (hj : j < d) (hnn : nn < M)
    (hmm : mm < M)
    (h : (g * d + i) * (M * d) + (nn * d + i) = (g * d + j) * (M * d) + (mm * d + j)) :
    i = j ∧ nn = mm := by
  have hb : ∀ a b, a < M → b < d → a * d + b < M * d := by
    intro a b ha hb
    calc a * d + b < a * d + d := by omega
      _ = (a + 1) * d := by ring
      _ ≤ M * d := Nat.mul_le_mul_right _ ha
  have h1 := congrArg (fun x => x % (M * d)) h
  simp only [Nat.mul_add_mod', Nat.mod_eq_of_lt (hb nn i hnn hi),
    Nat.mod_eq_of_lt (hb mm j hmm hj)] at h1
  have h2 := congrArg (fun x => x % d) h1
  simp only [Nat.mul_add_mod', Nat.mod_eq_of_lt hi, Nat.mod_eq_of_lt hj] at h2
  subst h2
  refine ⟨rfl, ?_⟩
  have h3 : nn * d = mm * d := by omega
  exact Nat.eq_of_mul_eq_mul_right (by omega) h3

/-- The Jacobian after the loop over the components, started from a buffer
`l`: every entry has received the sum of the increments aimed at it. -/
theorem lhs_loop (d Nc No g : Nat) (fac : ℚ) (sc so l : List ℚ) (p : Nat)
    (hp : p < l.length) :
    (forLoop d l (fun lhs i =>
        forLoop No
          (forLoop Nc lhs (fun lhs ic =>
            lhs.set ((g * d + i) * (Nc + No) * d + ic * d + i)
              (lhs.getD ((g * d + i) * (Nc + No) * d + ic * d + i) 0 + sc.getD ic 0 * fac)))
          (fun lhs ic =>
            lhs.set ((g * d + i) * (Nc + No) * d + (ic + Nc) * d + i)
              (lhs.getD ((g * d + i) * (Nc + No) * d + (ic + Nc) * d + i) 0
                - so.getD ic 0 * fac)))).getD p 0
      = l.getD p 0 + ∑ i ∈ Finset.range d,
          (∑ ic ∈ Finset.range Nc,
              (if p = (g * d + i) * (Nc + No) * d + ic * d + i then sc.getD ic 0 * fac else 0)
            + ∑ ic ∈ Finset.range No,
              (if p = (g * d + i) * (Nc + No) * d + (ic + Nc) * d + i
                then -(so.getD ic 0 * fac) else 0)) := by
  have lenC : ∀ i (l : List ℚ) (k : Nat),
      (l.set ((g * d + i) * (Nc + No) * d + k * d + i)
        (l.getD ((g * d + i) * (Nc + No) * d + k * d + i) 0 + sc.getD k 0 * fac)).length
        = l.length := fun _ _ _ => List.length_set _ _ _
  have lenO : ∀ i (l : List ℚ) (k : Nat),
      (l.set ((g * d + i) * (Nc + No) * d + (k + Nc) * d + i)
        (l.getD ((g * d + i) * (Nc + No) * d + (k + Nc) * d + i) 0 - so.getD k 0 * fac)).length
        = l.length := fun _ _ _ => List.length_set _ _ _
  apply forLoop_getD_sum _
    (fun i p => ∑ ic ∈ Finset.range Nc,
        (if p = (g * d + i) * (Nc + No) * d + ic * d + i then sc.getD ic 0 * fac else 0)
      + ∑ ic ∈ Finset.range No,
        (if p = (g * d + i) * (Nc + No) * d + (ic + Nc) * d + i
          then -(so.getD ic 0 * fac) else 0))
  · intro l i
    rw [forLoop_length _ (lenO i), forLoop_length _ (lenC i)]
  · intro l i q hq
    rw [forLoop_getD_sum _
        (fun ic q => if q = (g * d + i) * (Nc + No) * d + (ic + Nc) * d + i
          then -(so.getD ic 0 * fac) else 0)
        (lenO i) (fun l k q hq => getD_set_sub l _ q _ hq) No _ q
        (by rw [forLoop_length _ (lenC i)]; exact hq),
      forLoop_getD_sum _
        (fun ic q => if q = (g * d + i) * (Nc + No) * d + ic * d + i
          then sc.getD ic 0 * fac else 0)
        (lenC i) (fun l k q hq => getD_set_add l _ q _ hq) Nc l q hq]
    ring
  · exact hp

/-- A double sum of indicator terms over pairwise distinct positions picks the
one term whose position is hit. -/
theorem sum_indicator_pick (d M : Nat) (idx : Nat → Nat → Nat) (v : Nat → Nat → ℚ)
    (hinj : ∀ i n j m, i < d → n < M → j < d → m < M → idx i n = idx j m →
      i = j ∧ n = m)
    (i0 n0 : Nat) (hi0 : i0 < d) (hn0 : n0 < M) :
    ∑ i ∈ Finset.range d, ∑ n ∈ Finset.range M,
      (if idx i0 n0 = idx i n then v i n else 0) = v i0 n0 := by
  rw [Finset.sum_eq_single i0, Finset.sum_eq_single n0]
  · simp
  · intro n hn hne
    rw [if_neg]
    intro h
    exact hne ((hinj i0 n0 i0 n hi0 hn0 hi0 (Finset.mem_range.mp hn) h).2).symm
  · intro h; exact absurd (Finset.mem_range.mpr hn0) h
  · intro i hi hne
    apply Finset.sum_eq_zero
    intro n hn
    rw [if_neg]
    intro h
    exact hne ((hinj i0 n0 i n hi0 hn0 (Finset.mem_range.mp hi) (Finset.mem_range.mp hn) h).1).symm
  · intro h; exact absurd (Finset.mem_range.mpr hi0) h

/-- A double sum of indicator terms vanishes at a position that is not hit. -/
theorem sum_indicator_miss (d M : Nat) (idx : Nat → Nat → Nat) (v : Nat → Nat → ℚ)
    (p : Nat)
    (hmiss : ∀ i n, i < d → n < M → p ≠ idx i n) :
    ∑ i ∈ Finset.range d, ∑ n ∈ Finset.range M, (if p = idx i n then v i n else 0) = 0 := by
  apply Finset.sum_eq_zero
  intro i hi
  apply Finset.sum_eq_zero
  intro n hn
  rw [if_neg (hmiss i n (Finset.mem_range.mp hi) (Finset.mem_range.mp hn))]

/-- The Jacobian of a pass: the loop over the components run on zeros. -/
theorem pass_lhs (R : Realm) (alg : Algorithm) (s : Scratch) (dg : DgInfo) :
    (processDgInfo R alg s dg).scratch.lhs =
      forLoop R.nDim
        (List.replicate
          ((dg.meFCCurrent_.nodesPerElement_ + dg.meFCOpposing_.nodesPerElement_) * R.nDim
            * (dg.meFCCurrent_.nodesPerElement_ + dg.meFCOpposing_.nodesPerElement_) * R.nDim) 0)
        (fun lhs i =>
          forLoop dg.meFCOpposing_.nodesPerElement_
            (forLoop dg.meFCCurrent_.nodesPerElement_ lhs (fun lhs ic =>
              lhs.set ((dg.currentGaussPointId_ * R.nDim + i)
                  * (dg.meFCCurrent_.nodesPerElement_ + dg.meFCOpposing_.nodesPerElement_)
                  * R.nDim + ic * R.nDim + i)
                (lhs.getD ((dg.currentGaussPointId_ * R.nDim + i)
                  * (dg.meFCCurrent_.nodesPerElement_ + dg.meFCOpposing_.nodesPerElement_)
                  * R.nDim + ic * R.nDim + i) 0
                  + (dg.meFCCurrent_.general_shape_fcn dg.currentIsoParCoords_).getD ic 0
                    * ((processDgInfo R alg s dg).penaltyIp
                        * (processDgInfo R alg s dg).c_amag))))
            (fun lhs ic =>
              lhs.set ((dg.currentGaussPointId_ * R.nDim + i)
                  * (dg.meFCCurrent_.nodesPerElement_ + dg.meFCOpposing_.nodesPerElement_)
                  * R.nDim + (ic + dg.meFCCurrent_.nodesPerElement_) * R.nDim + i)
                (lhs.getD ((dg.currentGaussPointId_ * R.nDim + i)
                  * (dg.meFCCurrent_.nodesPerElement_ + dg.meFCOpposing_.nodesPerElement_)
                  * R.nDim + (ic + dg.meFCCurrent_.nodesPerElement_) * R.nDim + i) 0
                  - (dg.meFCOpposing_.general_shape_fcn dg.opposingIsoParCoords_).getD ic 0
                    * ((processDgInfo R alg s dg).penaltyIp
                        * (processDgInfo R alg s dg).c_amag)))) := by
  have h := congrArg Prod.snd (pass_out R alg s dg)
  rw [assemble_eq] at h
  simp only at h
  rw [h, zeroFill_eq _ _ (length_resize _ _ _)]
  rfl

/-- The Jacobian of a pass, entry by entry: the sum over components and over
the nodes of both faces of the increments aimed at the entry. -/
theorem pass_lhs_getD (R : Realm) (alg : Algorithm) (s : Scratch) (dg : DgInfo) (q : Nat)
    (hq : q < (dg.meFCCurrent_.nodesPerElement_ + dg.meFCOpposing_.nodesPerElement_) * R.nDim
      * ((dg.meFCCurrent_.nodesPerElement_ + dg.meFCOpposing_.nodesPerElement_) * R.nDim)) :
    (processDgInfo R alg s dg).scratch.lhs.getD q 0 =
      ∑ i ∈ Finset.range R.nDim,
        ∑ nn ∈ Finset.range
            (dg.meFCCurrent_.nodesPerElement_ + dg.meFCOpposing_.nodesPerElement_),
          (if q = (dg.currentGaussPointId_ * R.nDim + i)
                * ((dg.meFCCurrent_.nodesPerElement_ + dg.meFCOpposing_.nodesPerElement_)
                    * R.nDim)
                + (nn * R.nDim + i)
            then (if nn < dg.meFCCurrent_.nodesPerElement_
              then (dg.meFCCurrent_.general_shape_fcn dg.currentIsoParCoords_).getD nn 0
                * ((processDgInfo R alg s dg).penaltyIp * (processDgInfo R alg s dg).c_amag)
              else -((dg.meFCOpposing_.general_shape_fcn dg.opposingIsoParCoords_).getD
                  (nn - dg.meFCCurrent_.nodesPerElement_) 0
                * ((processDgInfo R alg s dg).penaltyIp * (processDgInfo R alg s dg).c_amag)))
            else 0) := by
  rw [pass_lhs, lhs_loop]
  · have hz : (List.replicate
        ((dg.meFCCurrent_.nodesPerElement_ + dg.meFCOpposing_.nodesPerElement_) * R.nDim
          * (dg.meFCCurrent_.nodesPerElement_ + dg.meFCOpposing_.nodesPerElement_) * R.nDim)
        (0 : ℚ)).getD q 0 = 0 := by
      rw [List.getD_eq_getElem?_getD]
      cases h : (List.replicate _ (0 : ℚ))[q]? with
      | none => rfl
      | some x =>
        obtain ⟨hlt, hx⟩ := List.getElem?_eq_some_iff.mp h
        rw [List.getElem_replicate] at hx
        simp [← hx]
    rw [hz, zero_add]
    apply Finset.sum_congr rfl
    intro i _
    rw [Finset.sum_range_add]
    congr 1
    · apply Finset.sum_congr rfl
      intro ic hic
      rw [lhs_index, if_pos (Finset.mem_range.mp hic)]
    · apply Finset.sum_congr rfl
      intro io _
      have hge : ¬ dg.meFCCurrent_.nodesPerElement_ + io < dg.meFCCurrent_.nodesPerElement_ := by
        omega
      rw [lhs_index, Nat.add_comm io]
      simp only [if_neg hge, Nat.add_sub_cancel_left]
  · rw [List.length_replicate]
    calc q < _ := hq
      _ = _ := by ring

/-! ## The inverse length scale (lines 369-391) -/

/-- The inverse length scale is the sum, over the face nodes and the spatial
index, of the gradient of the node's basis function times the normal. -/
theorem inverseLength_eq_sum (nDim num_face_nodes : Nat) (face_node_ordinals : List Nat)
    (p_Nx p_dndx : List ℚ) :
    inverseLength nDim num_face_nodes face_node_ordinals p_Nx p_dndx =
      ∑ ic ∈ Finset.range num_face_nodes, ∑ j ∈ Finset.range nDim,
        p_dndx.getD (face_node_ordinals.getD ic 0 * nDim + j) 0 * p_Nx.getD j 0 := by
  unfold inverseLength
  have hbody : (fun (acc : ℚ) (ic : Nat) =>
        forLoop nDim acc (fun acc j =>
          acc + p_dndx.getD (face_node_ordinals.getD ic 0 * nDim + j) 0 * p_Nx.getD j 0)) =
      (fun acc ic => acc + ∑ j ∈ Finset.range nDim,
          p_dndx.getD (face_node_ordinals.getD ic 0 * nDim + j) 0 * p_Nx.getD j 0) := by
    funext acc ic
    exact forLoop_add_sum nDim acc _
  show forLoop num_face_nodes (0 : ℚ) (fun (acc : ℚ) (ic : Nat) =>
        forLoop nDim acc (fun acc j =>
          acc + p_dndx.getD (face_node_ordinals.getD ic 0 * nDim + j) 0 * p_Nx.getD j 0)) = _
  rw [hbody, forLoop_add_sum, zero_add]

/-! ## The concrete pairing, evaluated -/

theorem ratSqrt_quarter : ratSqrt (1 / 4) = 1 / 2 := by
  norm_num [ratSqrt]

set_option maxRecDepth 100000 in
set_option maxHeartbeats 4000000 in
/-- The viscous fluxes, the interpolated velocities and diffusivities, the
inverse lengths, the area magnitude and the mass-flow rate of the concrete
pairing. -/
theorem exPass_values :
    exPass.currentDiffFluxBip = [-2, 0, 0] ∧ exPass.opposingDiffFluxBip = [2, 0, 0]
    ∧ exPass.currentUBip = [1, 0] ∧ exPass.opposingUBip = [1, 0]
    ∧ exPass.currentDiffFluxCoeffBip = 1 ∧ exPass.opposingDiffFluxCoeffBip = 1
    ∧ exPass.currentInverseLength = 1 ∧ exPass.opposingInverseLength = 1
    ∧ exPass.c_amag = 1 / 2 ∧ exPass.tmdot = 0 := by
  simp [exPass, exAlg, processDgInfo, construct, exRealm, exDg, edge2, quad4, quadTopo,
    Scratch.fresh, resize, gatherFace, gatherElem, areaMagnitudes, computeNormals,
    inverseLength, diffFluxBip, forLoop, List.range_succ, List.range_zero]
  norm_num [ratSqrt]

/-! ## The viscous flux (lines 420-474) -/

/-- The viscous flux of one side, component by component: the double sum over
the parent element's nodes and the spatial index of the three stress terms. -/
theorem diffFluxBip_getD (nDim nodesPerElement : Nat) (includeDivU_ mu : ℚ)
    (p_Nx p_dndx p_u : List ℚ) (i : Nat) (hi : i < nDim) (h3 : i < 3) :
    (diffFluxBip nDim nodesPerElement includeDivU_ mu p_Nx p_dndx p_u).getD i 0 =
      ∑ ic ∈ Finset.range nodesPerElement, ∑ j ∈ Finset.range nDim,
        ((-mu * p_dndx.getD (ic * nDim + j) 0 * p_Nx.getD j 0 * p_u.getD (ic * nDim + i) 0
            + 2 / 3 * mu * p_dndx.getD (ic * nDim + j) 0 * p_u.getD (ic * nDim + j) 0
                * p_Nx.getD j 0 * includeDivU_)
          + -mu * p_dndx.getD (ic * nDim + i) 0 * p_Nx.getD j 0
              * p_u.getD (ic * nDim + j) 0) := by
  let T : Nat → Nat → Nat → ℚ := fun ic j i =>
    (-mu * p_dndx.getD (ic * nDim + j) 0 * p_Nx.getD j 0 * p_u.getD (ic * nDim + i) 0
        + 2 / 3 * mu * p_dndx.getD (ic * nDim + j) 0 * p_u.getD (ic * nDim + j) 0
            * p_Nx.getD j 0 * includeDivU_)
      + -mu * p_dndx.getD (ic * nDim + i) 0 * p_Nx.getD j 0 * p_u.getD (ic * nDim + j) 0
  let inner : Nat → Nat → List ℚ → Nat → List ℚ := fun ic j flux i =>
    (flux.set i (flux.getD i 0
        + (-mu * p_dndx.getD (ic * nDim + j) 0 * p_Nx.getD j 0 * p_u.getD (ic * nDim + i) 0
          + 2 / 3 * mu * p_dndx.getD (ic * nDim + j) 0 * p_u.getD (ic * nDim + j) 0
              * p_Nx.getD j 0 * includeDivU_))).set i
      ((flux.set i (flux.getD i 0
        + (-mu * p_dndx.getD (ic * nDim + j) 0 * p_Nx.getD j 0 * p_u.getD (ic * nDim + i) 0
          + 2 / 3 * mu * p_dndx.getD (ic * nDim + j) 0 * p_u.getD (ic * nDim + j) 0
              * p_Nx.getD j 0 * includeDivU_))).getD i 0
        + -mu * p_dndx.getD (ic * nDim + i) 0 * p_Nx.getD j 0 * p_u.getD (ic * nDim + j) 0)
  have len_inner : ∀ ic j (l : List ℚ) (k : Nat), (inner ic j l k).length = l.length := by
    intro ic j l k
    simp only [inner, List.length_set]
  have get_inner : ∀ ic j (l : List ℚ) (k q : Nat), q < l.length →
      (inner ic j l k).getD q 0 = l.getD q 0 + if q = k then T ic j k else 0 := by
    intro ic j l k q hq
    simp only [inner]
    rw [getD_set_add _ _ _ _ (by rw [List.length_set]; exact hq), getD_set_add _ _ _ _ hq]
    by_cases hqk : q = k
    · simp only [hqk, if_true, T]; ring
    · simp only [hqk, if_false]; ring
  have len_mid : ∀ ic (l : List ℚ) (j : Nat),
      (forLoop nDim l (inner ic j)).length = l.length :=
    fun ic l j => forLoop_length _ (len_inner ic j) nDim l
  have get_mid : ∀ ic (l : List ℚ) (j q : Nat), q < l.length →
      (forLoop nDim l (inner ic j)).getD q 0
        = l.getD q 0 + ∑ k ∈ Finset.range nDim, if q = k then T ic j k else 0 :=
    fun ic l j q hq => forLoop_getD_sum _ _ (len_inner ic j) (get_inner ic j) nDim l q hq
  have len_outer : ∀ (l : List ℚ) (ic : Nat),
      (forLoop nDim l (fun flux j => forLoop nDim flux (inner ic j))).length = l.length :=
    fun l ic => forLoop_length _ (len_mid ic) nDim l
  have get_outer : ∀ (l : List ℚ) (ic q : Nat), q < l.length →
      (forLoop nDim l (fun flux j => forLoop nDim flux (inner ic j))).getD q 0
        = l.getD q 0 + ∑ j ∈ Finset.range nDim, ∑ k ∈ Finset.range nDim,
            if q = k then T ic j k else 0 :=
    fun l ic q hq => forLoop_getD_sum _ _ (len_mid ic) (get_mid ic) nDim l q hq
  have hall := forLoop_getD_sum _ _ len_outer get_outer nodesPerElement [0, 0, 0] i
    (by simpa using h3)
  have hdef : diffFluxBip nDim nodesPerElement includeDivU_ mu p_Nx p_dndx p_u =
      forLoop nodesPerElement [0, 0, 0]
        (fun flux ic => forLoop nDim flux (fun flux j => forLoop nDim flux (inner ic j))) :=
    rfl
  have hzero : ([0, 0, 0] : List ℚ).getD i 0 = 0 := by
    interval_cases i <;> rfl
  rw [hdef, hall, hzero, zero_add]
  apply Finset.sum_congr rfl
  intro ic _
  apply Finset.sum_congr rfl
  intro j _
  rw [Finset.sum_ite_eq, if_pos (Finset.mem_range.mpr hi)]

/-! ## The residual of a pass, entry by entry -/

theorem pass_rhs_length (R : Realm) (alg : Algorithm) (s : Scratch) (dg : DgInfo) :
    (processDgInfo R alg s dg).scratch.rhs.length =
      (dg.meFCCurrent_.nodesPerElement_ + dg.meFCOpposing_.nodesPerElement_) * R.nDim := by
  rw [pass_rhs]
  exact (rhs_loop _ _ _ _).1

theorem pass_rhs_entry (R : Realm) (alg : Algorithm) (s : Scratch) (dg : DgInfo)
    (hgp : dg.currentGaussPointId_
      < dg.meFCCurrent_.nodesPerElement_ + dg.meFCOpposing_.nodesPerElement_)
    (i : Nat) (hi : i < R.nDim) :
    (processDgInfo R alg s dg).scratch.rhs.getD (dg.currentGaussPointId_ * R.nDim + i) 0 =
      -(rhsTerm alg (processDgInfo R alg s dg).penaltyIp (processDgInfo R alg s dg).c_amag
          (processDgInfo R alg s dg).tmdot (processDgInfo R alg s dg).currentDiffFluxBip
          (processDgInfo R alg s dg).opposingDiffFluxBip (processDgInfo R alg s dg).currentUBip
          (processDgInfo R alg s dg).opposingUBip i) := by
  rw [pass_rhs, (rhs_loop _ _ _ _).2, if_pos]
  · rw [Nat.add_sub_cancel_left]
  · refine ⟨Nat.le_add_right _ _, by omega, ?_⟩
    calc dg.currentGaussPointId_ * R.nDim + i
        < dg.currentGaussPointId_ * R.nDim + R.nDim := by omega
      _ = (dg.currentGaussPointId_ + 1) * R.nDim := by ring
      _ ≤ (dg.meFCCurrent_.nodesPerElement_ + dg.meFCOpposing_.nodesPerElement_) * R.nDim :=
          Nat.mul_le_mul_right _ hgp

theorem pass_rhs_other (R : Realm) (alg : Algorithm) (s : Scratch) (dg : DgInfo) (q : Nat)
    (hq : ∀ i, i < R.nDim → q ≠ dg.currentGaussPointId_ * R.nDim + i) :
    (processDgInfo R alg s dg).scratch.rhs.getD q 0 = 0 := by
  rw [pass_rhs, (rhs_loop _ _ _ _).2, if_neg]
  rintro ⟨h1, h2, _⟩
  exact hq (q - dg.currentGaussPointId_ * R.nDim) (by omega) (by omega)

/-! ## Buffers that are overwritten completely -/

theorem overwrites_set {α : Type} (k : Nat) (x : α) :
    Overwrites (fun l : List α => l.set k x) (fun q => q = k) := by
  intro l1 l2 P hlen hP
  refine ⟨by simp only [List.length_set, hlen], fun q hq => ?_⟩
  simp only [List.getElem?_set, hlen]
  by_cases hk : k = q
  · simp only [hk, if_true]
  · simp only [hk, if_false]
    rcases hq with h | h
    · exact hP q h
    · exact absurd h.symm hk

theorem overwrites_mono {α : Type} (body : List α → List α) (W V : Nat → Prop)
    (h : Overwrites body W) (hVW : ∀ q, V q → W q) : Overwrites body V := by
  intro l1 l2 P hlen hP
  obtain ⟨h1, h2⟩ := h l1 l2 P hlen hP
  exact ⟨h1, fun q hq => h2 q (hq.imp id (hVW q))⟩

theorem overwrites_forLoop {α : Type} (n : Nat) (body : List α → Nat → List α)
    (W : Nat → Nat → Prop) (h : ∀ k, Overwrites (fun l => body l k) (W k)) :
    Overwrites (fun l => forLoop n l body) (fun q => ∃ k, k < n ∧ W k q) := by
  intro l1 l2 P hlen hP
  induction n with
  | zero =>
    simp only [forLoop_zero]
    refine ⟨hlen, fun q hq => ?_⟩
    rcases hq with hq | ⟨k, hk, _⟩
    · exact hP q hq
    · exact absurd hk (Nat.not_lt_zero k)
  | succ m ih =>
    obtain ⟨ihlen, ihP⟩ := ih
    simp only [forLoop_succ]
    obtain ⟨h1, h2⟩ := h m _ _ (fun q => P q ∨ ∃ k, k < m ∧ W k q) ihlen ihP
    refine ⟨h1, fun q hq => h2 q ?_⟩
    rcases hq with hq | ⟨k, hk, hW⟩
    · exact Or.inl (Or.inl hq)
    · by_cases hkm : k = m
      · subst hkm; exact Or.inr hW
      · exact Or.inl (Or.inr ⟨k, by omega, hW⟩)

/-- A step that overwrites every index of the buffer gives the same buffer
whatever the previous contents. -/
theorem eq_of_overwrites {α : Type} (body : List α → List α) (W : Nat → Prop)
    (h : Overwrites body W) (l1 l2 : List α) (hlen : l1.length = l2.length)
    (hall : ∀ q, q < (body l1).length → W q) : body l1 = body l2 := by
  obtain ⟨h1, h2⟩ := h l1 l2 (fun _ => False) hlen (fun _ hf => hf.elim)
  apply List.ext_getElem? 
  intro q
  by_cases hq : q < (body l1).length
  · exact h2 q (Or.inr (hall q hq))
  · rw [List.getElem?_eq_none (Nat.le_of_not_lt hq),
      List.getElem?_eq_none (by rw [← h1]; exact Nat.le_of_not_lt hq)]

/-- A single loop of writes `l[idx k] = val k` that reaches every index gives
the same buffer whatever the previous contents. -/
theorem set_loop_indep {α : Type} (n : Nat) (idx : Nat → Nat) (val : Nat → α)
    (l1 l2 : List α) (hlen : l1.length = l2.length)
    (hcover : ∀ q, q < l1.length → ∃ k, k < n ∧ q = idx k) :
    forLoop n l1 (fun l k => l.set (idx k) (val k))
      = forLoop n l2 (fun l k => l.set (idx k) (val k)) := by
  apply eq_of_overwrites (fun l => forLoop n l (fun l k => l.set (idx k) (val k)))
    (fun q => ∃ k, k < n ∧ q = idx k)
    (overwrites_forLoop n _ _ (fun k => overwrites_set (idx k) (val k))) l1 l2 hlen
  intro q hq
  rw [forLoop_length _ (fun _ _ => List.length_set _ _ _)] at hq
  exact hcover q hq

/-- A double loop of writes `l[idx a b] = val a b` that reaches every index
gives the same buffer whatever the previous contents. -/
theorem nested_set_loop_indep {α : Type} (n d : Nat) (idx : Nat → Nat → Nat)
    (val : Nat → Nat → α) (l1 l2 : List α) (hlen : l1.length = l2.length)
    (hcover : ∀ q, q < l1.length → ∃ a, a < n ∧ ∃ b, b < d ∧ q = idx a b) :
    forLoop n l1 (fun l a => forLoop d l (fun l b => l.set (idx a b) (val a b)))
      = forLoop n l2 (fun l a => forLoop d l (fun l b => l.set (idx a b) (val a b))) := by
  apply eq_of_overwrites
    (fun l => forLoop n l (fun l a => forLoop d l (fun l b => l.set (idx a b) (val a b))))
    (fun q => ∃ a, a < n ∧ ∃ b, b < d ∧ q = idx a b)
    (overwrites_forLoop n _ _
      (fun a => overwrites_forLoop d _ _ (fun b => overwrites_set (idx a b) (val a b))))
    l1 l2 hlen
  intro q hq
  rw [forLoop_length _ (fun l a =>
    forLoop_length _ (fun _ _ => List.length_set _ _ _) d l)] at hq
  exact hcover q hq

/-- The element gather updates the velocity and the coordinate buffers
independently of each other. -/
theorem gatherElem_eq (R : Realm) (nodes : List Entity) (v c : List ℚ) :
    gatherElem R nodes (v, c) =
      (forLoop nodes.length v (fun v ni => forLoop R.nDim v (fun v i =>
          v.set (ni * R.nDim + i) (R.velocityNp1 (nodes.getD ni 0) i))),
       forLoop nodes.length c (fun c ni => forLoop R.nDim c (fun c i =>
          c.set (ni * R.nDim + i) (R.coordinates (nodes.getD ni 0) i)))) := by
  have hbody : (fun (s : List ℚ × List ℚ) (ni : Nat) =>
        forLoop R.nDim s (fun t i =>
          (t.1.set (ni * R.nDim + i) (R.velocityNp1 (nodes.getD ni 0) i),
           t.2.set (ni * R.nDim + i) (R.coordinates (nodes.getD ni 0) i)))) =
      (fun s ni =>
        (forLoop R.nDim s.1 (fun v i =>
            v.set (ni * R.nDim + i) (R.velocityNp1 (nodes.getD ni 0) i)),
         forLoop R.nDim s.2 (fun c i =>
            c.set (ni * R.nDim + i) (R.coordinates (nodes.getD ni 0) i)))) := by
    funext s ni
    exact forLoop_prod R.nDim s.1 s.2
      (fun v i => v.set (ni * R.nDim + i) (R.velocityNp1 (nodes.getD ni 0) i))
      (fun c i => c.set (ni * R.nDim + i) (R.coordinates (nodes.getD ni 0) i))
  show forLoop nodes.length (v, c) (fun (s : List ℚ × List ℚ) (ni : Nat) =>
        forLoop R.nDim s (fun t i =>
          (t.1.set (ni * R.nDim + i) (R.velocityNp1 (nodes.getD ni 0) i),
           t.2.set (ni * R.nDim + i) (R.coordinates (nodes.getD ni 0) i)))) = _
  rw [hbody]
  exact forLoop_prod nodes.length v c
    (fun v ni => forLoop R.nDim v (fun v i =>
      v.set (ni * R.nDim + i) (R.velocityNp1 (nodes.getD ni 0) i)))
    (fun c ni => forLoop R.nDim c (fun c i =>
      c.set (ni * R.nDim + i) (R.coordinates (nodes.getD ni 0) i)))

/-- Every index below `n*d` is `a*d + b` with `a < n` and `b < d`. -/
theorem cover_node_major (n d q : Nat) (hq : q < n * d) :
    ∃ a, a < n ∧ ∃ b, b < d ∧ q = a * d + b := by
  have hd : 0 < d := by
    rcases Nat.eq_zero_or_pos d with h | h
    · subst h; simp at hq
    · exact h
  refine ⟨q / d, (Nat.div_lt_iff_lt_mul hd).mpr hq, q % d, Nat.mod_lt _ hd, ?_⟩
  rw [Nat.mul_comm]
  exact (Nat.div_add_mod q d).symm

/-- Every index below `n*d` is `b*n + a` with `a < n` and `b < d`. -/
theorem cover_component_major (n d q : Nat) (hq : q < n * d) :
    ∃ a, a < n ∧ ∃ b, b < d ∧ q = b * n + a := by
  have hn : 0 < n := by
    rcases Nat.eq_zero_or_pos n with h | h
    · subst h; simp at hq
    · exact h
  refine ⟨q % n, Nat.mod_lt _ hn, q / n,
    (Nat.div_lt_iff_lt_mul hn).mpr (by rw [Nat.mul_comm]; exact hq), ?_⟩
  rw [Nat.mul_comm]
  exact (Nat.div_add_mod q n).symm

/-- When the element has as many nodes as its master element says, the element
gather leaves buffers that do not depend on their previous contents. -/
theorem gatherElem_indep (R : Realm) (nodes : List Entity) (n : Nat) (hn : nodes.length = n)
    (v c v2 c2 : List ℚ) :
    gatherElem R nodes (resize v (n * R.nDim) 0, resize c (n * R.nDim) 0)
      = gatherElem R nodes (resize v2 (n * R.nDim) 0, resize c2 (n * R.nDim) 0) := by
  rw [gatherElem_eq, gatherElem_eq]
  have hcover : ∀ (l : List ℚ) q, q < (resize l (n * R.nDim) 0).length →
      ∃ a, a < nodes.length ∧ ∃ b, b < R.nDim ∧ q = a * R.nDim + b := by
    intro l q hq
    rw [length_resize] at hq
    rw [hn]
    exact cover_node_major n R.nDim q hq
  rw [nested_set_loop_indep nodes.length R.nDim (fun ni i => ni * R.nDim + i)
      (fun ni i => R.velocityNp1 (nodes.getD ni 0) i) _ (resize v2 (n * R.nDim) 0)
      (by rw [length_resize, length_resize]) (hcover v),
    nested_set_loop_indep nodes.length R.nDim (fun ni i => ni * R.nDim + i)
      (fun ni i => R.coordinates (nodes.getD ni 0) i) _ (resize c2 (n * R.nDim) 0)
      (by rw [length_resize, length_resize]) (hcover c)]

/-- The face gather updates the connected nodes, the diffusivity buffer and the
velocity buffer independently of each other; here the last two. -/
theorem gatherFace_snd (R : Realm) (nodes : List Entity) (base : Nat) (cn : List Entity)
    (dfc fv : List ℚ) :
    (gatherFace R nodes base (cn, dfc, fv)).2 =
      (forLoop nodes.length dfc (fun dfc ni => dfc.set ni (R.diffFluxCoeff (nodes.getD ni 0))),
       forLoop nodes.length fv (fun fv ni => forLoop R.nDim fv (fun fv i =>
          fv.set (i * nodes.length + ni) (R.velocityNp1 (nodes.getD ni 0) i)))) := by
  have h1 := forLoop_prod nodes.length cn (dfc, fv)
    (fun cn ni => cn.set (ni + base) (nodes.getD ni 0))
    (fun (t : List ℚ × List ℚ) ni =>
      (t.1.set ni (R.diffFluxCoeff (nodes.getD ni 0)),
       forLoop R.nDim t.2 (fun fv i =>
          fv.set (i * nodes.length + ni) (R.velocityNp1 (nodes.getD ni 0) i))))
  have h2 := forLoop_prod nodes.length dfc fv
    (fun dfc ni => dfc.set ni (R.diffFluxCoeff (nodes.getD ni 0)))
    (fun fv ni => forLoop R.nDim fv (fun fv i =>
          fv.set (i * nodes.length + ni) (R.velocityNp1 (nodes.getD ni 0) i)))
  have h3 : (gatherFace R nodes base (cn, dfc, fv)).2 =
      forLoop nodes.length (dfc, fv) (fun (t : List ℚ × List ℚ) ni =>
        (t.1.set ni (R.diffFluxCoeff (nodes.getD ni 0)),
         forLoop R.nDim t.2 (fun fv i =>
            fv.set (i * nodes.length + ni) (R.velocityNp1 (nodes.getD ni 0) i)))) :=
    congrArg Prod.snd h1
  rw [h3]
  exact h2

/-- When the face has as many nodes as its master element says, the face gather
leaves diffusivity and velocity buffers that do not depend on their previous
contents (nor on the connected-node buffer). -/
theorem gatherFace_indep (R : Realm) (nodes : List Entity) (n : Nat) (hn : nodes.length = n)
    (base base2 : Nat) (cn cn2 : List Entity) (dfc fv dfc2 fv2 : List ℚ) :
    (gatherFace R nodes base (cn, resize dfc n 0, resize fv (n * R.nDim) 0)).2
      = (gatherFace R nodes base2 (cn2, resize dfc2 n 0, resize fv2 (n * R.nDim) 0)).2 := by
  rw [gatherFace_snd, gatherFace_snd]
  rw [set_loop_indep nodes.length (fun ni => ni)
      (fun ni => R.diffFluxCoeff (nodes.getD ni 0)) _ (resize dfc2 n 0)
      (by rw [length_resize, length_resize])
      (fun q hq => ⟨q, by rw [length_resize] at hq; omega, rfl⟩),
    nested_set_loop_indep nodes.length R.nDim (fun ni i => i * nodes.length + ni)
      (fun ni i => R.velocityNp1 (nodes.getD ni 0) i) _ (resize fv2 (n * R.nDim) 0)
      (by rw [length_resize, length_resize])
      (fun q hq => by
        rw [length_resize] at hq
        rw [hn]
        exact cover_component_major n R.nDim q hq)]

/-- The loop of lines 353-356 updates the two normals independently. -/
theorem computeNormals_eq (R : Realm) (c_areaVec o_areaVec : Nat → ℚ) (gp : Nat)
    (c_amag o_amag : ℚ) (cNx oNx : List ℚ) :
    computeNormals R c_areaVec o_areaVec gp c_amag o_amag (cNx, oNx) =
      (forLoop R.nDim cNx (fun l i => l.set i (c_areaVec (gp * R.nDim + i) / c_amag)),
       forLoop R.nDim oNx (fun l i => l.set i (o_areaVec (0 * R.nDim + i) / o_amag))) :=
  forLoop_prod R.nDim cNx oNx
    (fun l i => l.set i (c_areaVec (gp * R.nDim + i) / c_amag))
    (fun l i => l.set i (o_areaVec (0 * R.nDim + i) / o_amag))

/-- Normal buffers of size `nDim` are overwritten completely. -/
theorem computeNormals_indep (R : Realm) (c_areaVec o_areaVec : Nat → ℚ) (gp : Nat)
    (c_amag o_amag : ℚ) (cNx oNx cNx2 oNx2 : List ℚ) (hc : cNx.length = R.nDim)
    (ho : oNx.length = R.nDim) (hc2 : cNx2.length = R.nDim) (ho2 : oNx2.length = R.nDim) :
    computeNormals R c_areaVec o_areaVec gp c_amag o_amag (cNx, oNx)
      = computeNormals R c_areaVec o_areaVec gp c_amag o_amag (cNx2, oNx2) := by
  rw [computeNormals_eq, computeNormals_eq,
    set_loop_indep R.nDim (fun i => i) (fun i => c_areaVec (gp * R.nDim + i) / c_amag)
      cNx cNx2 (by rw [hc, hc2]) (fun q hq => ⟨q, by omega, rfl⟩),
    set_loop_indep R.nDim (fun i => i) (fun i => o_areaVec (0 * R.nDim + i) / o_amag)
      oNx oNx2 (by rw [ho, ho2]) (fun q hq => ⟨q, by omega, rfl⟩)]

/-- The normal buffers keep their size through a pass. -/
theorem pass_normals_length (R : Realm) (alg : Algorithm) (s : Scratch) (dg : DgInfo) :
    (processDgInfo R alg s dg).scratch.cNx.length = s.cNx.length
    ∧ (processDgInfo R alg s dg).scratch.oNx.length = s.oNx.length := by
  have h : ((processDgInfo R alg s dg).scratch.cNx, (processDgInfo R alg s dg).scratch.oNx) =
      computeNormals R (R.exposedAreaVec dg.currentFace_) (R.exposedAreaVec dg.opposingFace_)
        dg.currentGaussPointId_ (processDgInfo R alg s dg).c_amag
        (processDgInfo R alg s dg).o_amag (s.cNx, s.oNx) := rfl
  rw [computeNormals_eq] at h
  have h1 := congrArg Prod.fst h
  have h2 := congrArg Prod.snd h
  simp only at h1 h2
  rw [h1, h2]
  exact ⟨forLoop_length _ (fun _ _ => List.length_set _ _ _) _ _,
    forLoop_length _ (fun _ _ => List.length_set _ _ _) _ _⟩

set_option maxHeartbeats 1000000 in
/-- A pass on a correspondence whose faces and elements have as many nodes as
their master elements say gives the same residual and Jacobian whatever the
buffers it starts from, provided the normal buffers have size `nDim`. -/
theorem pass_indep (R : Realm) (alg : Algorithm) (s s2 : Scratch) (dg : DgInfo)
    (hc : s.cNx.length = R.nDim) (ho : s.oNx.length = R.nDim)
    (hc2 : s2.cNx.length = R.nDim) (ho2 : s2.oNx.length = R.nDim)
    (hfc : (R.begin_nodes dg.currentFace_).length = dg.meFCCurrent_.nodesPerElement_)
    (hfo : (R.begin_nodes dg.opposingFace_).length = dg.meFCOpposing_.nodesPerElement_)
    (hec : (R.begin_nodes dg.currentElement_).length = dg.meSCSCurrent_.nodesPerElement_)
    (heo : (R.begin_nodes dg.opposingElement_).length = dg.meSCSOpposing_.nodesPerElement_) :
    (processDgInfo R alg s dg).scratch.rhs = (processDgInfo R alg s2 dg).scratch.rhs
    ∧ (processDgInfo R alg s dg).scratch.lhs = (processDgInfo R alg s2 dg).scratch.lhs := by
  have e1 := fun cn cn2 base2 => gatherFace_indep R (R.begin_nodes dg.currentFace_) _ hfc 0 base2
    cn cn2 s.ws_c_diffFluxCoeff s.ws_c_face_velocity s2.ws_c_diffFluxCoeff
    s2.ws_c_face_velocity
  have e2 := fun cn cn2 base base2 => gatherFace_indep R (R.begin_nodes dg.opposingFace_) _ hfo
    base base2 cn cn2 s.ws_o_diffFluxCoeff s.ws_o_face_velocity s2.ws_o_diffFluxCoeff
    s2.ws_o_face_velocity
  have e3 := gatherElem_indep R (R.begin_nodes dg.currentElement_) _ hec
    s.ws_c_elem_velocity s.ws_c_elem_coordinates s2.ws_c_elem_velocity
    s2.ws_c_elem_coordinates
  have e4 := gatherElem_indep R (R.begin_nodes dg.opposingElement_) _ heo
    s.ws_o_elem_velocity s.ws_o_elem_coordinates s2.ws_o_elem_velocity
    s2.ws_o_elem_coordinates
  have e5 := fun ca oa g x y => computeNormals_indep R ca oa g x y s.cNx s.oNx s2.cNx s2.oNx
    hc ho hc2 ho2
  have e6 : ∀ n (l l2 : List ℚ), zeroFill n (resize l n 0) = zeroFill n (resize l2 n 0) :=
    fun n l l2 => by
      rw [zeroFill_eq _ _ (length_resize _ _ _), zeroFill_eq _ _ (length_resize _ _ _)]
  constructor
  · simp only [processDgInfo]
    rw [e1 _ (resize s2.connected_nodes
        (dg.meFCCurrent_.nodesPerElement_ + dg.meFCOpposing_.nodesPerElement_) 0) 0,
      e2 _ (gatherFace R (R.begin_nodes dg.currentFace_) 0
        (resize s2.connected_nodes
          (dg.meFCCurrent_.nodesPerElement_ + dg.meFCOpposing_.nodesPerElement_) 0,
         resize s2.ws_c_diffFluxCoeff dg.meFCCurrent_.nodesPerElement_ 0,
         resize s2.ws_c_face_velocity (dg.meFCCurrent_.nodesPerElement_ * R.nDim) 0)).1
        _ (R.begin_nodes dg.currentFace_).length,
      e3, e4, e5, e6 _ s.rhs s2.rhs, e6 _ s.lhs s2.lhs]
  · simp only [processDgInfo]
    rw [e1 _ (resize s2.connected_nodes
        (dg.meFCCurrent_.nodesPerElement_ + dg.meFCOpposing_.nodesPerElement_) 0) 0,
      e2 _ (gatherFace R (R.begin_nodes dg.currentFace_) 0
        (resize s2.connected_nodes
          (dg.meFCCurrent_.nodesPerElement_ + dg.meFCOpposing_.nodesPerElement_) 0,
         resize s2.ws_c_diffFluxCoeff dg.meFCCurrent_.nodesPerElement_ 0,
         resize s2.ws_c_face_velocity (dg.meFCCurrent_.nodesPerElement_ * R.nDim) 0)).1
        _ (R.begin_nodes dg.currentFace_).length,
      e3, e4, e5, e6 _ s.rhs s2.rhs, e6 _ s.lhs s2.lhs]

/-! ## What the residual and the Jacobian do not depend on -/

/-- With `dsFactor = 0` the residual term of a component is the same for any
two pairs of viscous fluxes. -/
theorem rhsTerm_no_flux (alg : Algorithm) (hds : alg.dsFactor_ = 0) (pen amag tmdot : ℚ)
    (cF oF cF2 oF2 cU oU : List ℚ) (i : Nat) :
    rhsTerm alg pen amag tmdot cF oF cU oU i = rhsTerm alg pen amag tmdot cF2 oF2 cU oU i := by
  simp only [rhsTerm, hds, zero_mul]

set_option maxHeartbeats 1000000 in
/-- The penalty and the area magnitude of a pass do not depend on the velocity
field. -/
theorem pass_penalty_velocity (R : Realm) (alg : Algorithm) (s : Scratch) (dg : DgInfo)
    (v2 : Entity → Nat → ℚ) :
    (processDgInfo { R with velocityNp1 := v2 } alg s dg).penaltyIp
        = (processDgInfo R alg s dg).penaltyIp
    ∧ (processDgInfo { R with velocityNp1 := v2 } alg s dg).c_amag
        = (processDgInfo R alg s dg).c_amag := by
  constructor
  · simp only [processDgInfo]
    simp only [gatherFace_snd, gatherElem_eq, computeNormals_eq, areaMagnitudes]
  · rfl

/-! ## The connected nodes and the normals, entry by entry -/

/-- A loop of writes `l[k + base] = v k` for `k < n`: the entries from `base`
to `base + n` that exist hold the values written, the others are unchanged. -/
theorem shifted_set_loop {α : Type} (n base : Nat) (v : Nat → α) (l : List α) (q : Nat) :
    (forLoop n l (fun l k => l.set (k + base) (v k)))[q]? =
      if base ≤ q ∧ q < base + n ∧ q < l.length then some (v (q - base)) else l[q]? := by
  induction n with
  | zero =>
    rw [forLoop_zero, if_neg (by omega)]
  | succ m ih =>
    have hlen : (forLoop m l (fun l k => l.set (k + base) (v k))).length = l.length :=
      forLoop_length _ (fun _ _ => List.length_set _ _ _) m l
    rw [forLoop_succ, List.getElem?_set, hlen, ih]
    by_cases hq : m + base = q
    · subst hq
      rw [if_pos rfl]
      by_cases hlt : m + base < l.length
      · rw [if_pos hlt, if_pos (by omega), Nat.add_sub_cancel]
      · rw [if_neg hlt, if_neg (by omega), List.getElem?_eq_none (by omega)]
    · rw [if_neg hq]
      by_cases h1 : base ≤ q ∧ q < base + m ∧ q < l.length
      · rw [if_pos h1, if_pos (by omega)]
      · rw [if_neg h1, if_neg (by omega)]

/-- The face gather updates the connected nodes independently of the other two
buffers. -/
theorem gatherFace_fst (R : Realm) (nodes : List Entity) (base : Nat) (cn : List Entity)
    (dfc fv : List ℚ) :
    (gatherFace R nodes base (cn, dfc, fv)).1 =
      forLoop nodes.length cn (fun cn ni => cn.set (ni + base) (nodes.getD ni 0)) :=
  congrArg Prod.fst (forLoop_prod nodes.length cn (dfc, fv)
    (fun cn ni => cn.set (ni + base) (nodes.getD ni 0))
    (fun (t : List ℚ × List ℚ) ni =>
      (t.1.set ni (R.diffFluxCoeff (nodes.getD ni 0)),
       forLoop R.nDim t.2 (fun fv i =>
          fv.set (i * nodes.length + ni) (R.velocityNp1 (nodes.getD ni 0) i)))))

/-- The node set of a pass, as lines 222, 274 and 294 build it. -/
theorem pass_connected_nodes (R : Realm) (alg : Algorithm) (s : Scratch) (dg : DgInfo) :
    (processDgInfo R alg s dg).scratch.connected_nodes =
      forLoop (R.begin_nodes dg.opposingFace_).length
        (forLoop (R.begin_nodes dg.currentFace_).length
          (resize s.connected_nodes
            (dg.meFCCurrent_.nodesPerElement_ + dg.meFCOpposing_.nodesPerElement_) 0)
          (fun cn ni => cn.set (ni + 0) ((R.begin_nodes dg.currentFace_).getD ni 0)))
        (fun cn ni => cn.set (ni + (R.begin_nodes dg.currentFace_).length)
          ((R.begin_nodes dg.opposingFace_).getD ni 0)) := by
  have h : (processDgInfo R alg s dg).scratch.connected_nodes =
      (gatherFace R (R.begin_nodes dg.opposingFace_) (R.begin_nodes dg.currentFace_).length
        ((gatherFace R (R.begin_nodes dg.currentFace_) 0
          (resize s.connected_nodes
            (dg.meFCCurrent_.nodesPerElement_ + dg.meFCOpposing_.nodesPerElement_) 0,
           resize s.ws_c_diffFluxCoeff dg.meFCCurrent_.nodesPerElement_ 0,
           resize s.ws_c_face_velocity (dg.meFCCurrent_.nodesPerElement_ * R.nDim) 0)).1,
         resize s.ws_o_diffFluxCoeff dg.meFCOpposing_.nodesPerElement_ 0,
         resize s.ws_o_face_velocity (dg.meFCOpposing_.nodesPerElement_ * R.nDim) 0)).1 := rfl
  rw [h, gatherFace_fst, gatherFace_fst]

/-- The node set of a pass has `Nc + No` entries. -/
theorem pass_connected_nodes_length (R : Realm) (alg : Algorithm) (s : Scratch)
    (dg : DgInfo) :
    (processDgInfo R alg s dg).scratch.connected_nodes.length =
      dg.meFCCurrent_.nodesPerElement_ + dg.meFCOpposing_.nodesPerElement_ := by
  rw [pass_connected_nodes, forLoop_length _ (fun _ _ => List.length_set _ _ _),
    forLoop_length _ (fun _ _ => List.length_set _ _ _), length_resize]

/-- When the two faces have as many nodes as their master elements say, the
node set of a pass is the current face's nodes followed by the opposing
face's nodes, each in the order of the face's node relation. -/
theorem pass_connected_nodes_eq (R : Realm) (alg : Algorithm) (s : Scratch) (dg : DgInfo)
    (hfc : (R.begin_nodes dg.currentFace_).length = dg.meFCCurrent_.nodesPerElement_)
    (hfo : (R.begin_nodes dg.opposingFace_).length = dg.meFCOpposing_.nodesPerElement_) :
    (processDgInfo R alg s dg).scratch.connected_nodes =
      R.begin_nodes dg.currentFace_ ++ R.begin_nodes dg.opposingFace_ := by
  apply List.ext_getElem?
  intro q
  have hl1 : (forLoop (R.begin_nodes dg.currentFace_).length
      (resize s.connected_nodes
        (dg.meFCCurrent_.nodesPerElement_ + dg.meFCOpposing_.nodesPerElement_) 0)
      (fun cn ni => cn.set (ni + 0) ((R.begin_nodes dg.currentFace_).getD ni 0))).length
      = dg.meFCCurrent_.nodesPerElement_ + dg.meFCOpposing_.nodesPerElement_ := by
    rw [forLoop_length _ (fun _ _ => List.length_set _ _ _), length_resize]
  have hget : ∀ (l : List Entity) k, k < l.length → l[k]? = some (l.getD k 0) := by
    intro l k hk
    rw [List.getD_eq_getElem?_getD, List.getElem?_eq_getElem hk]
    rfl
  have hlr := length_resize s.connected_nodes
    (dg.meFCCurrent_.nodesPerElement_ + dg.meFCOpposing_.nodesPerElement_) 0
  have hin := shifted_set_loop (R.begin_nodes dg.currentFace_).length 0
    (fun ni => (R.begin_nodes dg.currentFace_).getD ni 0)
    (resize s.connected_nodes
      (dg.meFCCurrent_.nodesPerElement_ + dg.meFCOpposing_.nodesPerElement_) 0) q
  have hout := shifted_set_loop (R.begin_nodes dg.opposingFace_).length
    (R.begin_nodes dg.currentFace_).length
    (fun ni => (R.begin_nodes dg.opposingFace_).getD ni 0)
    (forLoop (R.begin_nodes dg.currentFace_).length
      (resize s.connected_nodes
        (dg.meFCCurrent_.nodesPerElement_ + dg.meFCOpposing_.nodesPerElement_) 0)
      (fun cn ni => cn.set (ni + 0) ((R.begin_nodes dg.currentFace_).getD ni 0))) q
  rw [pass_connected_nodes, hout, List.getElem?_append]
  by_cases h1 : q < (R.begin_nodes dg.currentFace_).length
  · rw [if_neg (by omega), hin, if_pos (by omega), if_pos h1, Nat.sub_zero, hget _ _ h1]
  · rw [if_neg h1]
    by_cases h2 : q < (R.begin_nodes dg.currentFace_).length
        + (R.begin_nodes dg.opposingFace_).length
    · rw [if_pos (by omega), hget _ _ (by omega)]
    · rw [if_neg (by omega), hin, if_neg (by omega), List.getElem?_eq_none (by omega),
        List.getElem?_eq_none (by omega)]

/-! ## The driver (lines 172-527) -/

/-- The three nested loops of `execute` visit the correspondences in the order
of the flattened list: group by group, face list by face list, pairing by
pairing. -/
theorem execute_flat (R : Realm) (alg : Algorithm) :
    execute R alg =
      (R.nonConformalInfoVec_.flatten.flatten.foldl
        (fun (st : Scratch × List Block) dgInfo =>
          ((processDgInfo R alg st.1 dgInfo).scratch,
           st.2 ++ [(processDgInfo R alg st.1 dgInfo).block]))
        (Scratch.fresh R.nDim, [])).2 := by
  unfold execute
  rw [List.foldl_flatten, List.foldl_flatten]

/-- The blocks scattered by a run of passes over the list `l`, seen through a
function `g` of the block: when `g` of the block of a pass on `dg` is `h dg`
for every buffer state satisfying an invariant `Inv` of the passes, the run
appends `l.map h` to what was scattered before. -/
theorem scatter_trace {β : Type} (R : Realm) (alg : Algorithm) (g : Block → β)
    (h : DgInfo → β) (Inv : Scratch → Prop)
    (hInv : ∀ s dg, Inv s → Inv (processDgInfo R alg s dg).scratch)
    (l : List DgInfo)
    (hg : ∀ s dg, dg ∈ l → Inv s → g (processDgInfo R alg s dg).block = h dg)
    (st : Scratch × List Block) (hst : Inv st.1) :
    ((l.foldl
        (fun (st : Scratch × List Block) dgInfo =>
          ((processDgInfo R alg st.1 dgInfo).scratch,
           st.2 ++ [(processDgInfo R alg st.1 dgInfo).block]))
        st).2).map g = st.2.map g ++ l.map h := by
  induction l generalizing st with
  | nil => simp
  | cons dg rest ih =>
    rw [List.foldl_cons,
      ih (fun s d hd hs => hg s d (List.mem_cons_of_mem dg hd) hs) _ (hInv _ _ hst)]
    simp only [List.map_append, List.map_cons, List.map_nil, List.append_assoc,
      List.singleton_append]
    rw [hg st.1 dg (List.mem_cons_self dg rest) hst]

/-- One block is scattered for each correspondence, whatever the mesh and the
fields. -/
theorem execute_length (R : Realm) (alg : Algorithm) :
    (execute R alg).length = R.nonConformalInfoVec_.flatten.flatten.length := by
  have h := scatter_trace R alg (fun _ => ()) (fun _ => ()) (fun _ => True)
    (fun _ _ _ => trivial) R.nonConformalInfoVec_.flatten.flatten (fun _ _ _ _ => rfl)
    (Scratch.fresh R.nDim, []) trivial
  rw [← execute_flat] at h
  have h2 := congrArg List.length h
  rw [List.length_map, List.map_nil, List.nil_append, List.length_map] at h2
  exact h2

/-! ## The area magnitudes and the normals (lines 340-356) -/

/-- The two magnitudes are the square roots of the sums of squares of the area
vector's components. -/
theorem areaMagnitudes_eq (R : Realm) (c_areaVec o_areaVec : Nat → ℚ) (gp : Nat) :
    areaMagnitudes R c_areaVec o_areaVec gp =
      (R.sqrt (∑ j ∈ Finset.range R.nDim,
          c_areaVec (gp * R.nDim + j) * c_areaVec (gp * R.nDim + j)),
       R.sqrt (∑ j ∈ Finset.range R.nDim,
          o_areaVec (0 * R.nDim + j) * o_areaVec (0 * R.nDim + j))) := by
  have h := forLoop_prod R.nDim (0 : ℚ) (0 : ℚ)
    (fun a j => a + c_areaVec (gp * R.nDim + j) * c_areaVec (gp * R.nDim + j))
    (fun a j => a + o_areaVec (0 * R.nDim + j) * o_areaVec (0 * R.nDim + j))
  rw [forLoop_add_sum, forLoop_add_sum, zero_add, zero_add] at h
  show (R.sqrt (forLoop R.nDim ((0 : ℚ), (0 : ℚ)) (fun a j =>
        (a.1 + c_areaVec (gp * R.nDim + j) * c_areaVec (gp * R.nDim + j),
         a.2 + o_areaVec (0 * R.nDim + j) * o_areaVec (0 * R.nDim + j)))).1,
      R.sqrt (forLoop R.nDim ((0 : ℚ), (0 : ℚ)) (fun a j =>
        (a.1 + c_areaVec (gp * R.nDim + j) * c_areaVec (gp * R.nDim + j),
         a.2 + o_areaVec (0 * R.nDim + j) * o_areaVec (0 * R.nDim + j)))).2) = _
  rw [h]

/-- A loop of writes `l[i] = v i` for `i < n` on a buffer of size `n` leaves
`v i` at every index `i < n`. -/
theorem set_loop_getD (n : Nat) (v : Nat → ℚ) (l : List ℚ) (hl : l.length = n) (i : Nat)
    (hi : i < n) : (forLoop n l (fun l k => l.set k (v k))).getD i 0 = v i := by
  have h : (forLoop n l (fun l k => l.set k (v k)))[i]? =
      if 0 ≤ i ∧ i < 0 + n ∧ i < l.length then some (v (i - 0)) else l[i]? :=
    shifted_set_loop n 0 v l i
  rw [List.getD_eq_getElem?_getD, h, if_pos (by omega)]
  rfl

/-- The normals of a pass started on normal buffers of size `nDim`: each
component is the area vector's component divided by the magnitude. -/
theorem pass_normals (R : Realm) (alg : Algorithm) (s : Scratch) (dg : DgInfo)
    (hc : s.cNx.length = R.nDim) (ho : s.oNx.length = R.nDim) (i : Nat) (hi : i < R.nDim) :
    (processDgInfo R alg s dg).scratch.cNx.getD i 0 =
        R.exposedAreaVec dg.currentFace_ (dg.currentGaussPointId_ * R.nDim + i)
          / (processDgInfo R alg s dg).c_amag
    ∧ (processDgInfo R alg s dg).scratch.oNx.getD i 0 =
        R.exposedAreaVec dg.opposingFace_ (0 * R.nDim + i)
          / (processDgInfo R alg s dg).o_amag := by
  have h : ((processDgInfo R alg s dg).scratch.cNx, (processDgInfo R alg s dg).scratch.oNx) =
      computeNormals R (R.exposedAreaVec dg.currentFace_) (R.exposedAreaVec dg.opposingFace_)
        dg.currentGaussPointId_ (processDgInfo R alg s dg).c_amag
        (processDgInfo R alg s dg).o_amag (s.cNx, s.oNx) := rfl
  rw [computeNormals_eq] at h
  have h1 := congrArg Prod.fst h
  have h2 := congrArg Prod.snd h
  simp only at h1 h2
  rw [h1, h2]
  exact ⟨set_loop_getD R.nDim _ s.cNx hc i hi, set_loop_getD R.nDim _ s.oNx ho i hi⟩

/-- The magnitudes of a pass. -/
theorem pass_amag (R : Realm) (alg : Algorithm) (s : Scratch) (dg : DgInfo) :
    (processDgInfo R alg s dg).c_amag =
        R.sqrt (∑ j ∈ Finset.range R.nDim,
          R.exposedAreaVec dg.currentFace_ (dg.currentGaussPointId_ * R.nDim + j)
            * R.exposedAreaVec dg.currentFace_ (dg.currentGaussPointId_ * R.nDim + j))
    ∧ (processDgInfo R alg s dg).o_amag =
        R.sqrt (∑ j ∈ Finset.range R.nDim,
          R.exposedAreaVec dg.opposingFace_ (0 * R.nDim + j)
            * R.exposedAreaVec dg.opposingFace_ (0 * R.nDim + j)) := by
  have h : ((processDgInfo R alg s dg).c_amag, (processDgInfo R alg s dg).o_amag) =
      areaMagnitudes R (R.exposedAreaVec dg.currentFace_) (R.exposedAreaVec dg.opposingFace_)
        dg.currentGaussPointId_ := rfl
  rw [areaMagnitudes_eq] at h
  exact ⟨congrArg Prod.fst h, congrArg Prod.snd h⟩

/-! ## The residual handed to `apply_coeff` -/

/-- C1. For every correspondence whose integration-point index addresses a row
of the block, the residual handed to `apply_coeff` has length `(Nc+No)*d`; its
entry at `currentGaussPointId*d + i` is
`-((dsFactor*ncDiffFlux[i] + penalty*(currentU[i]-opposingU[i]))*c_amag + ncAdv[i])`
for every component `i < d`; every other entry is zero; and when `dsFactor = 0`
the entry is `-(penalty*(currentU[i]-opposingU[i])*c_amag + ncAdv[i])`, in which
neither side's viscous flux occurs, and the residual is what the assembly loop
gives for any other pair of viscous fluxes. -/
theorem residual_entries (R : Realm) (alg : Algorithm) (s : Scratch) (dg : DgInfo)
    (hgp : dg.currentGaussPointId_
      < dg.meFCCurrent_.nodesPerElement_ + dg.meFCOpposing_.nodesPerElement_) :
    let p := processDgInfo R alg s dg
    p.block.rhs.length = (p.currentNodesPerFace + p.opposingNodesPerFace) * R.nDim
    ∧ (∀ i, i < R.nDim →
        p.block.rhs.getD (dg.currentGaussPointId_ * R.nDim + i) 0 =
          -((alg.dsFactor_ * ncDiffFlux alg.robinStyle_ (p.currentDiffFluxBip.getD i 0)
                (p.opposingDiffFluxBip.getD i 0)
              + p.penaltyIp * (p.currentUBip.getD i 0 - p.opposingUBip.getD i 0)) * p.c_amag
            + ncAdv alg.upwindAdvection_ alg.robinStyle_ p.tmdot (p.currentUBip.getD i 0)
                (p.opposingUBip.getD i 0)))
    ∧ (∀ q, (∀ i, i < R.nDim → q ≠ dg.currentGaussPointId_ * R.nDim + i) →
        p.block.rhs.getD q 0 = 0)
    ∧ (alg.dsFactor_ = 0 → ∀ i, i < R.nDim →
        p.block.rhs.getD (dg.currentGaussPointId_ * R.nDim + i) 0 =
          -(p.penaltyIp * (p.currentUBip.getD i 0 - p.opposingUBip.getD i 0) * p.c_amag
            + ncAdv alg.upwindAdvection_ alg.robinStyle_ p.tmdot (p.currentUBip.getD i 0)
                (p.opposingUBip.getD i 0)))
    ∧ (alg.dsFactor_ = 0 → ∀ currentFlux opposingFlux : List ℚ,
        p.block.rhs =
          (assemble R.nDim p.currentNodesPerFace p.opposingNodesPerFace dg.currentGaussPointId_
            alg p.penaltyIp p.c_amag p.tmdot currentFlux opposingFlux p.currentUBip
            p.opposingUBip p.ws_c_general_shape_function p.ws_o_general_shape_function
            (List.replicate p.rhsSize 0, List.replicate p.lhsSize 0)).1) := by
  intro p
  refine ⟨pass_rhs_length R alg s dg, ?_, ?_, ?_, ?_⟩
  · intro i hi
    exact pass_rhs_entry R alg s dg hgp i hi
  · intro q hq
    exact pass_rhs_other R alg s dg q hq
  · intro hds i hi
    show (processDgInfo R alg s dg).scratch.rhs.getD _ 0 = _
    rw [pass_rhs_entry R alg s dg hgp i hi]
    simp only [rhsTerm, hds, zero_mul, zero_add]
  · intro hds cF oF
    show (processDgInfo R alg s dg).scratch.rhs = _
    rw [assemble_eq, pass_rhs]
    have hbody : ∀ (rhs : List ℚ) (i : Nat),
        rhs.set (dg.currentGaussPointId_ * R.nDim + i)
            (rhs.getD (dg.currentGaussPointId_ * R.nDim + i) 0
              - rhsTerm alg p.penaltyIp p.c_amag p.tmdot p.currentDiffFluxBip
                  p.opposingDiffFluxBip p.currentUBip p.opposingUBip i)
          = rhs.set (dg.currentGaussPointId_ * R.nDim + i)
            (rhs.getD (dg.currentGaussPointId_ * R.nDim + i) 0
              - rhsTerm alg p.penaltyIp p.c_amag p.tmdot cF oF p.currentUBip
                  p.opposingUBip i) := by
      intro rhs i
      rw [rhsTerm_no_flux alg hds _ _ _ _ _ cF oF]
    exact congrArg (forLoop R.nDim _) (funext fun rhs => funext fun i => hbody rhs i)

/-- C1, at the concrete conformal pairing: the integration-point index `0`
addresses a row, the residual has `8` entries and entry `5` is zero. -/
theorem residual_entries_witness :
    exDg.currentGaussPointId_
        < exDg.meFCCurrent_.nodesPerElement_ + exDg.meFCOpposing_.nodesPerElement_
    ∧ exPass.block.rhs.length = 8 ∧ exPass.block.rhs.getD 5 0 = 0 :=
  ⟨by decide,
   (residual_entries exRealm exAlg (Scratch.fresh 2) exDg (by decide)).1,
   (residual_entries exRealm exAlg (Scratch.fresh 2) exDg (by decide)).2.2.1 5
     (fun i hi => by
        have h2 : i < 2 := hi
        show 5 ≠ 0 * 2 + i
        omega)⟩

/-! ## The flux evaluator -/

/-- C2. For every correspondence the penalty coefficient is
`0.5*(mu_cur*invLen_cur + mu_opp*invLen_opp) + |mdot|/2`, where `mu` is each
side's diffusivity interpolated from the gathered face values, `invLen` each
side's inverse length scale (the sum over the side's face nodes and the spatial
index of the basis gradient times the unit normal) and `mdot` the mass-flow
rate stored on the current face at the current integration point; with both
diffusivities and both inverse lengths equal to `1` and `mdot = 0` the penalty
is `1`. -/
theorem penalty_coefficient (R : Realm) (alg : Algorithm) (s : Scratch) (dg : DgInfo) :
    let p := processDgInfo R alg s dg
    p.penaltyIp =
        1 / 2 * (p.currentDiffFluxCoeffBip * p.currentInverseLength
          + p.opposingDiffFluxCoeffBip * p.opposingInverseLength) + |p.tmdot| / 2
    ∧ p.currentDiffFluxCoeffBip =
        (dg.meFCCurrent_.interpolatePoint 1 dg.currentIsoParCoords_
          p.scratch.ws_c_diffFluxCoeff).getD 0 0
    ∧ p.opposingDiffFluxCoeffBip =
        (dg.meFCOpposing_.interpolatePoint 1 dg.opposingIsoParCoords_
          p.scratch.ws_o_diffFluxCoeff).getD 0 0
    ∧ p.currentInverseLength =
        ∑ ic ∈ Finset.range (R.begin_nodes dg.currentFace_).length,
          ∑ j ∈ Finset.range R.nDim,
            p.ws_c_dndx.getD
                ((dg.currentElementTopo_.side_node_ordinals dg.currentFaceOrdinal_).getD ic 0
                  * R.nDim + j) 0
              * p.scratch.cNx.getD j 0
    ∧ p.opposingInverseLength =
        ∑ ic ∈ Finset.range (R.begin_nodes dg.opposingFace_).length,
          ∑ j ∈ Finset.range R.nDim,
            p.ws_o_dndx.getD
                ((dg.opposingElementTopo_.side_node_ordinals dg.opposingFaceOrdinal_).getD ic 0
                  * R.nDim + j) 0
              * p.scratch.oNx.getD j 0
    ∧ p.tmdot = R.ncMassFlowRate dg.currentFace_ dg.currentGaussPointId_
    ∧ (p.currentDiffFluxCoeffBip = 1 → p.opposingDiffFluxCoeffBip = 1 →
        p.currentInverseLength = 1 → p.opposingInverseLength = 1 → p.tmdot = 0 →
        p.penaltyIp = 1) := by
  intro p
  have hpen : p.penaltyIp =
      1 / 2 * (p.currentDiffFluxCoeffBip * p.currentInverseLength
        + p.opposingDiffFluxCoeffBip * p.opposingInverseLength) + |p.tmdot| / 2 := rfl
  refine ⟨hpen, rfl, rfl, ?_, ?_, rfl, ?_⟩
  · exact inverseLength_eq_sum _ _ _ _ _
  · exact inverseLength_eq_sum _ _ _ _ _
  · intro h1 h2 h3 h4 h5
    rw [hpen, h1, h2, h3, h4, h5]
    norm_num

/-- C2, at the concrete conformal pairing (unit diffusivity, unit inverse
lengths, zero mass flow, dg policy): the penalty is `1`. -/
theorem penalty_coefficient_witness : exPass.penaltyIp = 1 :=
  (penalty_coefficient exRealm exAlg (Scratch.fresh 2) exDg).2.2.2.2.2.2
    exPass_values.2.2.2.2.1 exPass_values.2.2.2.2.2.1 exPass_values.2.2.2.2.2.2.1
    exPass_values.2.2.2.2.2.2.2.1 exPass_values.2.2.2.2.2.2.2.2.2

/-- C3, as the code has it. With the dg policy, for every component `i` the
combined diffusive flux is half the difference of the two sides' viscous
fluxes, `0.5*(currentFlux[i] - opposingFlux[i])`: the average of the current
flux and the negated opposing flux. -/
theorem ncDiffFlux_dg (R : Realm) (upwind : Bool) (divU : ℚ) (s : Scratch) (dg : DgInfo)
    (i : Nat) :
    let alg := construct .NC_ALG_TYPE_DG upwind divU
    let p := processDgInfo R alg s dg
    ncDiffFlux alg.robinStyle_ (p.currentDiffFluxBip.getD i 0) (p.opposingDiffFluxBip.getD i 0)
        = 1 / 2 * (p.currentDiffFluxBip.getD i 0 - p.opposingDiffFluxBip.getD i 0)
    ∧ ncDiffFlux alg.robinStyle_ (p.currentDiffFluxBip.getD i 0)
          (p.opposingDiffFluxBip.getD i 0)
        = (p.currentDiffFluxBip.getD i 0 + -(p.opposingDiffFluxBip.getD i 0)) / 2 := by
  intro alg p
  have hr : alg.robinStyle_ = false := rfl
  rw [hr]
  constructor
  · simp [ncDiffFlux]
  · simp only [ncDiffFlux, Bool.false_eq_true, if_false]
    ring

/-- C3 as stated fails: at the concrete conformal pairing under the dg policy
the viscous fluxes are `-2` and `2` in the first component, the combined flux
is `-2`, and the plain average of the two is `0`. -/
theorem ncDiffFlux_dg_counterexample :
    exAlg = construct .NC_ALG_TYPE_DG false 0
    ∧ exPass.currentDiffFluxBip.getD 0 0 = -2 ∧ exPass.opposingDiffFluxBip.getD 0 0 = 2
    ∧ ncDiffFlux exAlg.robinStyle_ (exPass.currentDiffFluxBip.getD 0 0)
          (exPass.opposingDiffFluxBip.getD 0 0) = -2
    ∧ ncDiffFlux exAlg.robinStyle_ (exPass.currentDiffFluxBip.getD 0 0)
          (exPass.opposingDiffFluxBip.getD 0 0)
        ≠ (exPass.currentDiffFluxBip.getD 0 0 + exPass.opposingDiffFluxBip.getD 0 0) / 2 := by
  have hc : exPass.currentDiffFluxBip.getD 0 0 = -2 := by rw [exPass_values.1]; rfl
  have ho : exPass.opposingDiffFluxBip.getD 0 0 = 2 := by rw [exPass_values.2.1]; rfl
  have hr : exAlg.robinStyle_ = false := rfl
  refine ⟨rfl, hc, ho, ?_, ?_⟩
  · rw [hc, ho, hr]; norm_num [ncDiffFlux]
  · rw [hc, ho, hr]; norm_num [ncDiffFlux]

/-- C4, as the code has it. For every correspondence whose integration-point
index addresses a row of the block (the conformal pairing `Nc = No = 2`, `d = 2`
among them), with equal interpolated velocities on the two sides and
`mdot = 0`: the residual entry of component `i` is
`-(dsFactor*ncDiffFlux[i]*c_amag)`, every other entry is zero, and with
`dsFactor = 0` (the direct policy) every entry of the residual is zero. -/
theorem zero_residual_direct (R : Realm) (alg : Algorithm) (s : Scratch) (dg : DgInfo)
    (hgp : dg.currentGaussPointId_
      < dg.meFCCurrent_.nodesPerElement_ + dg.meFCOpposing_.nodesPerElement_)
    (hU : ∀ i, i < R.nDim →
      (processDgInfo R alg s dg).currentUBip.getD i 0
        = (processDgInfo R alg s dg).opposingUBip.getD i 0)
    (hmdot : R.ncMassFlowRate dg.currentFace_ dg.currentGaussPointId_ = 0) :
    let p := processDgInfo R alg s dg
    (∀ i, i < R.nDim →
        p.block.rhs.getD (dg.currentGaussPointId_ * R.nDim + i) 0 =
          -(alg.dsFactor_ * ncDiffFlux alg.robinStyle_ (p.currentDiffFluxBip.getD i 0)
              (p.opposingDiffFluxBip.getD i 0) * p.c_amag))
    ∧ (∀ q, (∀ i, i < R.nDim → q ≠ dg.currentGaussPointId_ * R.nDim + i) →
        p.block.rhs.getD q 0 = 0)
    ∧ (alg.dsFactor_ = 0 → ∀ q, p.block.rhs.getD q 0 = 0) := by
  intro p
  have hm : p.tmdot = 0 := hmdot
  have hentry : ∀ i, i < R.nDim →
      p.block.rhs.getD (dg.currentGaussPointId_ * R.nDim + i) 0 =
        -(alg.dsFactor_ * ncDiffFlux alg.robinStyle_ (p.currentDiffFluxBip.getD i 0)
            (p.opposingDiffFluxBip.getD i 0) * p.c_amag) := by
    intro i hi
    show (processDgInfo R alg s dg).scratch.rhs.getD _ 0 = _
    rw [pass_rhs_entry R alg s dg hgp i hi]
    show -(rhsTerm alg p.penaltyIp p.c_amag p.tmdot p.currentDiffFluxBip p.opposingDiffFluxBip
      p.currentUBip p.opposingUBip i) = _
    have hUi : p.currentUBip.getD i 0 = p.opposingUBip.getD i 0 := hU i hi
    simp only [rhsTerm, hm, hUi, ncAdv, zero_mul, mul_zero, sub_self, add_zero, ite_self]
  refine ⟨hentry, fun q hq => pass_rhs_other R alg s dg q hq, ?_⟩
  intro hds q
  by_cases hq : ∀ i, i < R.nDim → q ≠ dg.currentGaussPointId_ * R.nDim + i
  · exact pass_rhs_other R alg s dg q hq
  · push_neg at hq
    obtain ⟨i, hi, rfl⟩ := hq
    rw [hentry i hi, hds]
    ring

/-- C4, amended, at the concrete conformal pairing under the direct policy:
the interpolated velocities agree, `mdot = 0`, and the first residual entry is
zero. -/
theorem zero_residual_direct_witness :
    (processDgInfo exRealm (construct .NC_ALG_TYPE_DS false 0) (Scratch.fresh 2)
      exDg).block.rhs.getD 0 0 = 0 :=
  (zero_residual_direct exRealm (construct .NC_ALG_TYPE_DS false 0) (Scratch.fresh 2) exDg
    (by decide)
    (fun i _ => by
      show exPass.currentUBip.getD i 0 = exPass.opposingUBip.getD i 0
      rw [exPass_values.2.2.1, exPass_values.2.2.2.1])
    rfl).2.2 rfl 0

/-- C4 as stated fails: the concrete conformal pairing has `Nc = No = 2`,
`d = 2`, the same gathered nodal velocities and diffusivities on the two faces,
equal interpolated velocities and `mdot = 0`, and under the dg policy the first
entry of the residual handed to `apply_coeff` is `1`. -/
theorem zero_residual_counterexample :
    exPass.currentNodesPerFace = 2 ∧ exPass.opposingNodesPerFace = 2 ∧ exRealm.nDim = 2
    ∧ exPass.scratch.ws_c_face_velocity = exPass.scratch.ws_o_face_velocity
    ∧ exPass.scratch.ws_c_diffFluxCoeff = exPass.scratch.ws_o_diffFluxCoeff
    ∧ exPass.currentUBip = exPass.opposingUBip
    ∧ exPass.tmdot = 0
    ∧ exPass.block.rhs.getD 0 0 = 1
    ∧ ¬ (∀ q, exPass.block.rhs.getD q 0 = 0) := by
  have hval := exPass_values
  have h1 : exPass.block.rhs.getD 0 0 = 1 := by
    have h := pass_rhs_entry exRealm exAlg (Scratch.fresh 2) exDg (by decide) 0 (by decide)
    show (processDgInfo exRealm exAlg (Scratch.fresh 2) exDg).scratch.rhs.getD
      (exDg.currentGaussPointId_ * exRealm.nDim + 0) 0 = 1
    rw [h]
    show -(rhsTerm exAlg exPass.penaltyIp exPass.c_amag exPass.tmdot exPass.currentDiffFluxBip
      exPass.opposingDiffFluxBip exPass.currentUBip exPass.opposingUBip 0) = 1
    have hpen : exPass.penaltyIp = penaltyIp exPass.currentDiffFluxCoeffBip
      exPass.currentInverseLength exPass.opposingDiffFluxCoeffBip
      exPass.opposingInverseLength exPass.tmdot := rfl
    have hds : exAlg.dsFactor_ = 1 := rfl
    have hr : exAlg.robinStyle_ = false := rfl
    have hu : exAlg.upwindAdvection_ = false := rfl
    rw [hpen, hval.1, hval.2.1, hval.2.2.1, hval.2.2.2.1, hval.2.2.2.2.1, hval.2.2.2.2.2.1,
      hval.2.2.2.2.2.2.1, hval.2.2.2.2.2.2.2.1, hval.2.2.2.2.2.2.2.2.1,
      hval.2.2.2.2.2.2.2.2.2]
    simp only [rhsTerm, hds, hr, hu]
    norm_num [penaltyIp, ncDiffFlux, ncAdv]
  refine ⟨rfl, rfl, rfl, ?_, ?_, ?_, hval.2.2.2.2.2.2.2.2.2, h1, ?_⟩
  · simp [exPass, exAlg, processDgInfo, exRealm, exDg, edge2, Scratch.fresh, resize,
      gatherFace, forLoop, List.range_succ, List.range_zero]
  · simp [exPass, exAlg, processDgInfo, exRealm, exDg, edge2, Scratch.fresh, resize,
      gatherFace, forLoop, List.range_succ, List.range_zero]
  · rw [hval.2.2.1, hval.2.2.2.1]
  · intro h
    have h0 := h 0
    rw [h1] at h0
    norm_num at h0

/-- C5. Swapping the current and the opposing side (diffusivity, inverse
length, interpolated velocity, viscous flux) and negating `mdot` leaves the
penalty coefficient unchanged and, when the Robin flag is off, turns the
combined diffusive flux and the advective flux (upwind on or off) of every
component into their negatives. -/
theorem swap_sides_symmetry (mu_c invLen_c mu_o invLen_o mdot : ℚ) (upwind : Bool)
    (currentFlux_i opposingFlux_i currentU_i opposingU_i : ℚ) :
    penaltyIp mu_o invLen_o mu_c invLen_c (-mdot) = penaltyIp mu_c invLen_c mu_o invLen_o mdot
    ∧ ncDiffFlux false opposingFlux_i currentFlux_i
        = -ncDiffFlux false currentFlux_i opposingFlux_i
    ∧ ncAdv upwind false (-mdot) opposingU_i currentU_i
        = -ncAdv upwind false mdot currentU_i opposingU_i := by
  refine ⟨?_, ?_, ?_⟩
  · simp only [penaltyIp, abs_neg]
    ring
  · simp only [ncDiffFlux, Bool.false_eq_true, if_false]
    ring
  · cases upwind
    · simp only [ncAdv, Bool.false_eq_true, if_false]
      ring
    · simp only [ncAdv, if_true]
      rcases lt_trichotomy mdot 0 with h | h | h
      · have h1 : -mdot > 0 := by linarith
        have h2 : ¬ mdot > 0 := by linarith
        rw [if_pos h1, if_neg h2]
        ring
      · subst h
        simp
      · have h1 : ¬ -mdot > 0 := by linarith
        have h2 : mdot > 0 := h
        rw [if_neg h1, if_pos h2]
        ring

/-- C6. The advective flux of a component: with upwind advection enabled it is
`mdot*currentU[i]` when `mdot > 0` and `mdot*opposingU[i]` when `mdot < 0`,
whatever the Robin flag; at `mdot = 0` the opposing side is selected and the
value, `0`, is also what the current side would give; with upwind disabled it
is `mdot*opposingU[i]` when the Robin flag is on and
`0.5*mdot*(currentU[i] + opposingU[i])` otherwise. -/
theorem ncAdv_selection (robin : Bool) (mdot currentU_i opposingU_i : ℚ) :
    (mdot > 0 → ncAdv true robin mdot currentU_i opposingU_i = mdot * currentU_i)
    ∧ (mdot < 0 → ncAdv true robin mdot currentU_i opposingU_i = mdot * opposingU_i)
    ∧ (mdot = 0 →
        ncAdv true robin mdot currentU_i opposingU_i = mdot * opposingU_i
        ∧ mdot * opposingU_i = mdot * currentU_i
        ∧ ncAdv true robin mdot currentU_i opposingU_i = 0)
    ∧ ncAdv false true mdot currentU_i opposingU_i = mdot * opposingU_i
    ∧ ncAdv false false mdot currentU_i opposingU_i
        = 1 / 2 * mdot * (currentU_i + opposingU_i) := by
  refine ⟨?_, ?_, ?_, ?_, ?_⟩
  · intro h
    simp only [ncAdv, if_true, if_pos h]
  · intro h
    have h2 : ¬ mdot > 0 := by linarith
    simp only [ncAdv, if_true, if_neg h2]
  · intro h
    subst h
    have h2 : ¬ (0 : ℚ) > 0 := lt_irrefl 0
    simp only [ncAdv, if_true, if_neg h2, zero_mul, and_self]
  · simp only [ncAdv, Bool.false_eq_true, if_false, if_true]
  · simp only [ncAdv, Bool.false_eq_true, if_false]

/-- C6, at concrete values: with upwinding and `mdot = 2 > 0` the flux is
`2 * 5`, with `mdot = -2 < 0` it is `-2 * 7`, with `mdot = 0` it is `0`. -/
theorem ncAdv_selection_witness :
    ncAdv true false 2 5 7 = 2 * 5 ∧ ncAdv true true (-2) 5 7 = -2 * 7
    ∧ ncAdv true false 0 5 7 = 0 :=
  ⟨(ncAdv_selection false 2 5 7).1 (by norm_num),
   (ncAdv_selection true (-2) 5 7).2.1 (by norm_num),
   ((ncAdv_selection false 0 5 7).2.2.1 rfl).2.2⟩

/-- C7. With the Robin flag on, for every component `i` the combined diffusive
flux of a pass is `-opposingFlux[i]`; it is the same for any other value of the
current side's flux, and the same in any other run (other mesh, fields,
buffers, correspondence, other switches) whose opposing flux is the same. -/
theorem ncDiffFlux_robin (R : Realm) (alg : Algorithm) (s : Scratch) (dg : DgInfo) (i : Nat)
    (hrobin : alg.robinStyle_ = true) :
    let p := processDgInfo R alg s dg
    ncDiffFlux alg.robinStyle_ (p.currentDiffFluxBip.getD i 0) (p.opposingDiffFluxBip.getD i 0)
        = -(p.opposingDiffFluxBip.getD i 0)
    ∧ (∀ x : ℚ, ncDiffFlux alg.robinStyle_ x (p.opposingDiffFluxBip.getD i 0)
        = ncDiffFlux alg.robinStyle_ (p.currentDiffFluxBip.getD i 0)
            (p.opposingDiffFluxBip.getD i 0))
    ∧ (∀ (R2 : Realm) (alg2 : Algorithm) (s2 : Scratch) (dg2 : DgInfo),
        alg2.robinStyle_ = true →
        (processDgInfo R2 alg2 s2 dg2).opposingDiffFluxBip.getD i 0
          = p.opposingDiffFluxBip.getD i 0 →
        ncDiffFlux alg2.robinStyle_ ((processDgInfo R2 alg2 s2 dg2).currentDiffFluxBip.getD i 0)
            ((processDgInfo R2 alg2 s2 dg2).opposingDiffFluxBip.getD i 0)
          = ncDiffFlux alg.robinStyle_ (p.currentDiffFluxBip.getD i 0)
              (p.opposingDiffFluxBip.getD i 0)) := by
  intro p
  rw [hrobin]
  refine ⟨by simp only [ncDiffFlux, if_true], fun x => by simp only [ncDiffFlux, if_true], ?_⟩
  intro R2 alg2 s2 dg2 h2 hopp
  rw [h2]
  simp only [ncDiffFlux, if_true]
  rw [hopp]

/-- C7, at the concrete conformal pairing under the robin policy: the combined
diffusive flux of the first component is `-2`, minus the opposing flux `2`. -/
theorem ncDiffFlux_robin_witness :
    (construct .NC_ALG_TYPE_RB false 0).robinStyle_ = true
    ∧ ncDiffFlux (construct .NC_ALG_TYPE_RB false 0).robinStyle_
        ((processDgInfo exRealm (construct .NC_ALG_TYPE_RB false 0) (Scratch.fresh 2)
          exDg).currentDiffFluxBip.getD 0 0)
        ((processDgInfo exRealm (construct .NC_ALG_TYPE_RB false 0) (Scratch.fresh 2)
          exDg).opposingDiffFluxBip.getD 0 0)
      = -((processDgInfo exRealm (construct .NC_ALG_TYPE_RB false 0) (Scratch.fresh 2)
          exDg).opposingDiffFluxBip.getD 0 0) :=
  ⟨rfl, (ncDiffFlux_robin exRealm (construct .NC_ALG_TYPE_RB false 0) (Scratch.fresh 2) exDg 0
    rfl).1⟩

/-- C8. For each side and every component `i` (the dimension is at most `3`),
the viscous flux of a pass is the sum over the side's parent-element nodes and
the spatial index `j` of
`-mu*dNdx_j*n_j*u_i + (2/3)*mu*dNdx_j*u_j*n_j*divU - mu*dNdx_i*n_j*u_j`, with
`mu` the side's interpolated diffusivity, `n` its normal, `dNdx` its gradient
operator and `u` its gathered element velocity; with the divergence switch at
`0` it is the sum of the first and third terms only. -/
theorem viscous_flux (R : Realm) (alg : Algorithm) (s : Scratch) (dg : DgInfo) (i : Nat)
    (hi : i < R.nDim) (hd : R.nDim ≤ 3) :
    let p := processDgInfo R alg s dg
    let term := fun (mu : ℚ) (n dNdx u : List ℚ) (ic j : Nat) =>
      -mu * dNdx.getD (ic * R.nDim + j) 0 * n.getD j 0 * u.getD (ic * R.nDim + i) 0
        + 2 / 3 * mu * dNdx.getD (ic * R.nDim + j) 0 * u.getD (ic * R.nDim + j) 0
            * n.getD j 0 * alg.includeDivU_
        + -mu * dNdx.getD (ic * R.nDim + i) 0 * n.getD j 0 * u.getD (ic * R.nDim + j) 0
    let termNoDivU := fun (mu : ℚ) (n dNdx u : List ℚ) (ic j : Nat) =>
      -mu * dNdx.getD (ic * R.nDim + j) 0 * n.getD j 0 * u.getD (ic * R.nDim + i) 0
        + -mu * dNdx.getD (ic * R.nDim + i) 0 * n.getD j 0 * u.getD (ic * R.nDim + j) 0
    p.currentDiffFluxBip.getD i 0 =
        ∑ ic ∈ Finset.range p.currentNodesPerElement, ∑ j ∈ Finset.range R.nDim,
          term p.currentDiffFluxCoeffBip p.scratch.cNx p.ws_c_dndx
            p.scratch.ws_c_elem_velocity ic j
    ∧ p.opposingDiffFluxBip.getD i 0 =
        ∑ ic ∈ Finset.range p.opposingNodesPerElement, ∑ j ∈ Finset.range R.nDim,
          term p.opposingDiffFluxCoeffBip p.scratch.oNx p.ws_o_dndx
            p.scratch.ws_o_elem_velocity ic j
    ∧ (alg.includeDivU_ = 0 →
        p.currentDiffFluxBip.getD i 0 =
          ∑ ic ∈ Finset.range p.currentNodesPerElement, ∑ j ∈ Finset.range R.nDim,
            termNoDivU p.currentDiffFluxCoeffBip p.scratch.cNx p.ws_c_dndx
              p.scratch.ws_c_elem_velocity ic j
        ∧ p.opposingDiffFluxBip.getD i 0 =
          ∑ ic ∈ Finset.range p.opposingNodesPerElement, ∑ j ∈ Finset.range R.nDim,
            termNoDivU p.opposingDiffFluxCoeffBip p.scratch.oNx p.ws_o_dndx
              p.scratch.ws_o_elem_velocity ic j) := by
  intro p term termNoDivU
  have h3 : i < 3 := by omega
  have hc : p.currentDiffFluxBip.getD i 0 =
      ∑ ic ∈ Finset.range p.currentNodesPerElement, ∑ j ∈ Finset.range R.nDim,
        term p.currentDiffFluxCoeffBip p.scratch.cNx p.ws_c_dndx
          p.scratch.ws_c_elem_velocity ic j :=
    diffFluxBip_getD R.nDim _ alg.includeDivU_ _ _ _ _ i hi h3
  have ho : p.opposingDiffFluxBip.getD i 0 =
      ∑ ic ∈ Finset.range p.opposingNodesPerElement, ∑ j ∈ Finset.range R.nDim,
        term p.opposingDiffFluxCoeffBip p.scratch.oNx p.ws_o_dndx
          p.scratch.ws_o_elem_velocity ic j :=
    diffFluxBip_getD R.nDim _ alg.includeDivU_ _ _ _ _ i hi h3
  refine ⟨hc, ho, ?_⟩
  intro hdiv
  have hterm : ∀ mu n dNdx u ic j, term mu n dNdx u ic j = termNoDivU mu n dNdx u ic j := by
    intro mu n dNdx u ic j
    simp only [term, termNoDivU, hdiv, mul_zero, add_zero]
  rw [hc, ho]
  simp only [hterm, and_self]

/-- C8, at the concrete conformal pairing (two dimensions, divergence switch
`0`): the first component of the current side's viscous flux is the double sum
of the first and third stress terms. -/
theorem viscous_flux_witness :
    (0 < exRealm.nDim ∧ exRealm.nDim ≤ 3 ∧ exAlg.includeDivU_ = 0)
    ∧ exPass.currentDiffFluxBip.getD 0 0 =
        ∑ ic ∈ Finset.range exPass.currentNodesPerElement, ∑ j ∈ Finset.range exRealm.nDim,
          (-exPass.currentDiffFluxCoeffBip * exPass.ws_c_dndx.getD (ic * exRealm.nDim + j) 0
              * exPass.scratch.cNx.getD j 0
              * exPass.scratch.ws_c_elem_velocity.getD (ic * exRealm.nDim + 0) 0
            + -exPass.currentDiffFluxCoeffBip * exPass.ws_c_dndx.getD (ic * exRealm.nDim + 0) 0
              * exPass.scratch.cNx.getD j 0
              * exPass.scratch.ws_c_elem_velocity.getD (ic * exRealm.nDim + j) 0) :=
  ⟨⟨by decide, by decide, rfl⟩,
   ((viscous_flux exRealm exAlg (Scratch.fresh 2) exDg 0 (by decide) (by decide)).2.2 rfl).1⟩

/-- C9. For every correspondence whose integration-point index addresses a row
of the block, with `W = (Nc+No)*d` the row length: the Jacobian handed to
`apply_coeff` has `W*W` entries; row `currentGaussPointId*d + i` holds
`+r_c(ic)*penalty*c_amag` at column `ic*d + i` for every current-face node `ic`
and `-r_o(io)*penalty*c_amag` at column `(Nc+io)*d + i` for every opposing-face
node `io`; every entry that is not at such a position is zero; and the Jacobian
is the same for every setting of `dsFactor`, the Robin flag, the upwind flag
and the divergence switch, and for every velocity field. -/
theorem jacobian_entries (R : Realm) (alg : Algorithm) (s : Scratch) (dg : DgInfo)
    (hgp : dg.currentGaussPointId_
      < dg.meFCCurrent_.nodesPerElement_ + dg.meFCOpposing_.nodesPerElement_) :
    let p := processDgInfo R alg s dg
    let W := (p.currentNodesPerFace + p.opposingNodesPerFace) * R.nDim
    p.block.lhs.length = W * W
    ∧ (∀ i ic, i < R.nDim → ic < p.currentNodesPerFace →
        p.block.lhs.getD ((dg.currentGaussPointId_ * R.nDim + i) * W + (ic * R.nDim + i)) 0 =
          (dg.meFCCurrent_.general_shape_fcn dg.currentIsoParCoords_).getD ic 0
            * p.penaltyIp * p.c_amag)
    ∧ (∀ i io, i < R.nDim → io < p.opposingNodesPerFace →
        p.block.lhs.getD ((dg.currentGaussPointId_ * R.nDim + i) * W
            + ((p.currentNodesPerFace + io) * R.nDim + i)) 0 =
          -((dg.meFCOpposing_.general_shape_fcn dg.opposingIsoParCoords_).getD io 0
            * p.penaltyIp * p.c_amag))
    ∧ (∀ q, (∀ i nn, i < R.nDim → nn < p.currentNodesPerFace + p.opposingNodesPerFace →
          q ≠ (dg.currentGaussPointId_ * R.nDim + i) * W + (nn * R.nDim + i)) →
        p.block.lhs.getD q 0 = 0)
    ∧ (∀ alg2 : Algorithm, (processDgInfo R alg2 s dg).block.lhs = p.block.lhs)
    ∧ (∀ velocity2 : Entity → Nat → ℚ,
        (processDgInfo { R with velocityNp1 := velocity2 } alg s dg).block.lhs
          = p.block.lhs) := by
  intro p W
  have hlen : p.block.lhs.length = W * W := by
    show (processDgInfo R alg s dg).scratch.lhs.length = W * W
    rw [pass_lhs, forLoop_length, List.length_replicate]
    · show _ = (dg.meFCCurrent_.nodesPerElement_ + dg.meFCOpposing_.nodesPerElement_) * R.nDim
        * ((dg.meFCCurrent_.nodesPerElement_ + dg.meFCOpposing_.nodesPerElement_) * R.nDim)
      ring
    · intro l i
      rw [forLoop_length _ (fun _ _ => List.length_set _ _ _),
        forLoop_length _ (fun _ _ => List.length_set _ _ _)]
  have hinj := lhs_index_inj dg.currentGaussPointId_ R.nDim
    (dg.meFCCurrent_.nodesPerElement_ + dg.meFCOpposing_.nodesPerElement_)
  have hrow : ∀ i nn, i < R.nDim →
      nn < dg.meFCCurrent_.nodesPerElement_ + dg.meFCOpposing_.nodesPerElement_ →
      (dg.currentGaussPointId_ * R.nDim + i) * W + (nn * R.nDim + i) < W * W := by
    intro i nn hi hnn
    have h1 : nn * R.nDim + i < W := by
      calc nn * R.nDim + i < nn * R.nDim + R.nDim := by omega
        _ = (nn + 1) * R.nDim := by ring
        _ ≤ W := Nat.mul_le_mul_right _ hnn
    have h2 : dg.currentGaussPointId_ * R.nDim + i + 1 ≤ W := by
      calc dg.currentGaussPointId_ * R.nDim + i + 1
          ≤ dg.currentGaussPointId_ * R.nDim + R.nDim := by omega
        _ = (dg.currentGaussPointId_ + 1) * R.nDim := by ring
        _ ≤ W := Nat.mul_le_mul_right _ hgp
    calc (dg.currentGaussPointId_ * R.nDim + i) * W + (nn * R.nDim + i)
        < (dg.currentGaussPointId_ * R.nDim + i) * W + W := by omega
      _ = (dg.currentGaussPointId_ * R.nDim + i + 1) * W := by ring
      _ ≤ W * W := Nat.mul_le_mul_right _ h2
  have hpick : ∀ i nn, i < R.nDim →
      nn < dg.meFCCurrent_.nodesPerElement_ + dg.meFCOpposing_.nodesPerElement_ →
      p.block.lhs.getD ((dg.currentGaussPointId_ * R.nDim + i) * W + (nn * R.nDim + i)) 0 =
        (if nn < dg.meFCCurrent_.nodesPerElement_
          then (dg.meFCCurrent_.general_shape_fcn dg.currentIsoParCoords_).getD nn 0
            * (p.penaltyIp * p.c_amag)
          else -((dg.meFCOpposing_.general_shape_fcn dg.opposingIsoParCoords_).getD
              (nn - dg.meFCCurrent_.nodesPerElement_) 0
            * (p.penaltyIp * p.c_amag))) := by
    intro i nn hi hnn
    show (processDgInfo R alg s dg).scratch.lhs.getD _ 0 = _
    rw [pass_lhs_getD R alg s dg _ (hrow i nn hi hnn)]
    exact sum_indicator_pick R.nDim _
      (fun i nn => (dg.currentGaussPointId_ * R.nDim + i) * W + (nn * R.nDim + i))
      (fun _ nn => if nn < dg.meFCCurrent_.nodesPerElement_
          then (dg.meFCCurrent_.general_shape_fcn dg.currentIsoParCoords_).getD nn 0
            * (p.penaltyIp * p.c_amag)
          else -((dg.meFCOpposing_.general_shape_fcn dg.opposingIsoParCoords_).getD
              (nn - dg.meFCCurrent_.nodesPerElement_) 0
            * (p.penaltyIp * p.c_amag)))
      (fun a n b m ha hn hb hm h => hinj a n b m ha hb hn hm h) i nn hi hnn
  refine ⟨hlen, ?_, ?_, ?_, ?_, ?_⟩
  · intro i ic hi hic
    have hic2 : ic < dg.meFCCurrent_.nodesPerElement_ := hic
    rw [hpick i ic hi (by omega), if_pos hic2]
    ring
  · intro i io hi hio
    have hio2 : io < dg.meFCOpposing_.nodesPerElement_ := hio
    have hge : ¬ dg.meFCCurrent_.nodesPerElement_ + io < dg.meFCCurrent_.nodesPerElement_ := by
      omega
    show p.block.lhs.getD ((dg.currentGaussPointId_ * R.nDim + i) * W
      + ((dg.meFCCurrent_.nodesPerElement_ + io) * R.nDim + i)) 0 = _
    rw [hpick i _ hi (by omega), if_neg hge, Nat.add_sub_cancel_left]
    ring
  · intro q hq
    by_cases hlt : q < W * W
    · show (processDgInfo R alg s dg).scratch.lhs.getD q 0 = 0
      rw [pass_lhs_getD R alg s dg q hlt]
      exact sum_indicator_miss R.nDim _
        (fun i nn => (dg.currentGaussPointId_ * R.nDim + i) * W + (nn * R.nDim + i)) _ q
        (fun i nn hi hnn => hq i nn hi hnn)
    · exact getD_of_length_le _ _ (by rw [hlen]; omega)
  · intro alg2
    show (processDgInfo R alg2 s dg).scratch.lhs = (processDgInfo R alg s dg).scratch.lhs
    rw [pass_lhs, pass_lhs]
    rfl
  · intro v2
    show (processDgInfo { R with velocityNp1 := v2 } alg s dg).scratch.lhs
      = (processDgInfo R alg s dg).scratch.lhs
    rw [pass_lhs { R with velocityNp1 := v2 }, pass_lhs R,
      (pass_penalty_velocity R alg s dg v2).1, (pass_penalty_velocity R alg s dg v2).2]

/-- C9, at the concrete conformal pairing: the Jacobian has `64` entries; in
row `0` the entry of the second current-face node (column `1*2 + 0`) is its
shape-function weight times the penalty times the area magnitude. -/
theorem jacobian_entries_witness :
    exDg.currentGaussPointId_
        < exDg.meFCCurrent_.nodesPerElement_ + exDg.meFCOpposing_.nodesPerElement_
    ∧ exPass.block.lhs.length = 8 * 8
    ∧ exPass.block.lhs.getD ((0 * 2 + 0) * 8 + (1 * 2 + 0)) 0
        = (edge2.general_shape_fcn [-1 / 2]).getD 1 0 * exPass.penaltyIp * exPass.c_amag :=
  ⟨by decide,
   (jacobian_entries exRealm exAlg (Scratch.fresh 2) exDg (by decide)).1,
   (jacobian_entries exRealm exAlg (Scratch.fresh 2) exDg (by decide)).2.1 0 1 (by decide)
     (by decide)⟩

/-! ## Reuse of the buffers across correspondences -/

/-- C10. For consecutive correspondences `A` then `B` processed on the same
buffers (started from any buffers `s0` whose normals have size `nDim`, the fresh
buffers among them; `A` of any sizes; the faces and elements of `B` having as
many nodes as their master elements say): the residual and the Jacobian handed
to `apply_coeff` for `B` are those of `B` processed alone on fresh buffers;
they have `B`'s sizes; and they are what the assembly loop makes of buffers of
`B`'s sizes with every entry zero. -/
theorem no_stale_values (R : Realm) (alg : Algorithm) (s0 : Scratch) (A B : DgInfo)
    (hc : s0.cNx.length = R.nDim) (ho : s0.oNx.length = R.nDim)
    (hfc : (R.begin_nodes B.currentFace_).length = B.meFCCurrent_.nodesPerElement_)
    (hfo : (R.begin_nodes B.opposingFace_).length = B.meFCOpposing_.nodesPerElement_)
    (hec : (R.begin_nodes B.currentElement_).length = B.meSCSCurrent_.nodesPerElement_)
    (heo : (R.begin_nodes B.opposingElement_).length = B.meSCSOpposing_.nodesPerElement_) :
    let sA := (processDgInfo R alg s0 A).scratch
    let pB := processDgInfo R alg sA B
    let alone := processDgInfo R alg (Scratch.fresh R.nDim) B
    pB.block.rhs = alone.block.rhs
    ∧ pB.block.lhs = alone.block.lhs
    ∧ pB.block.rhs.length = (pB.currentNodesPerFace + pB.opposingNodesPerFace) * R.nDim
    ∧ pB.block.lhs.length = (pB.currentNodesPerFace + pB.opposingNodesPerFace) * R.nDim
        * ((pB.currentNodesPerFace + pB.opposingNodesPerFace) * R.nDim)
    ∧ (pB.block.rhs, pB.block.lhs) =
        assemble R.nDim pB.currentNodesPerFace pB.opposingNodesPerFace B.currentGaussPointId_
          alg pB.penaltyIp pB.c_amag pB.tmdot pB.currentDiffFluxBip pB.opposingDiffFluxBip
          pB.currentUBip pB.opposingUBip pB.ws_c_general_shape_function
          pB.ws_o_general_shape_function
          (List.replicate pB.rhsSize 0, List.replicate pB.lhsSize 0) := by
  intro sA pB alone
  have hn := pass_normals_length R alg s0 A
  have hind := pass_indep R alg sA (Scratch.fresh R.nDim) B (by rw [hn.1, hc])
    (by rw [hn.2, ho]) (by simp [Scratch.fresh]) (by simp [Scratch.fresh]) hfc hfo hec heo
  refine ⟨hind.1, hind.2, pass_rhs_length R alg sA B, ?_, ?_⟩
  · show (processDgInfo R alg sA B).scratch.lhs.length = _
    rw [pass_lhs, forLoop_length, List.length_replicate]
    · show _ = (B.meFCCurrent_.nodesPerElement_ + B.meFCOpposing_.nodesPerElement_) * R.nDim
        * ((B.meFCCurrent_.nodesPerElement_ + B.meFCOpposing_.nodesPerElement_) * R.nDim)
      ring
    · intro l i
      rw [forLoop_length _ (fun _ _ => List.length_set _ _ _),
        forLoop_length _ (fun _ _ => List.length_set _ _ _)]
  · have h := pass_out R alg sA B
    rw [zeroFill_eq _ _ (length_resize _ _ _), zeroFill_eq _ _ (length_resize _ _ _)] at h
    exact h

/-- C10, at a concrete pair: the faces and elements of the two-node pairing
`exDg` have as many nodes as their master elements say, and after the
three-node pairing `exDgA` on the same buffers the pass over `exDg` hands over
the residual and the Jacobian of `exDg` alone. -/
theorem no_stale_values_witness :
    ((exRealm.begin_nodes exDg.currentFace_).length = exDg.meFCCurrent_.nodesPerElement_
      ∧ (exRealm.begin_nodes exDg.opposingFace_).length = exDg.meFCOpposing_.nodesPerElement_
      ∧ (exRealm.begin_nodes exDg.currentElement_).length
          = exDg.meSCSCurrent_.nodesPerElement_
      ∧ (exRealm.begin_nodes exDg.opposingElement_).length
          = exDg.meSCSOpposing_.nodesPerElement_)
    ∧ (processDgInfo exRealm exAlg
          (processDgInfo exRealm exAlg (Scratch.fresh 2) exDgA).scratch exDg).block.rhs
        = exPass.block.rhs
    ∧ (processDgInfo exRealm exAlg
          (processDgInfo exRealm exAlg (Scratch.fresh 2) exDgA).scratch exDg).block.lhs
        = exPass.block.lhs :=
  ⟨⟨by decide, by decide, by decide, by decide⟩,
   (no_stale_values exRealm exAlg (Scratch.fresh 2) exDgA exDg (by simp [Scratch.fresh, exRealm])
      (by simp [Scratch.fresh, exRealm]) (by decide) (by decide) (by decide) (by decide)).1,
   (no_stale_values exRealm exAlg (Scratch.fresh 2) exDgA exDg (by simp [Scratch.fresh, exRealm])
      (by simp [Scratch.fresh, exRealm]) (by decide) (by decide) (by decide) (by decide)).2.1⟩

/-! ## The driver -/

/-- C11. For every list of interface groups, with `flat` the correspondences in
registration order (group, then face list, then pairing): `apply_coeff` is
called as many times as there are pairings; the node set of the `k`-th call has
`Nc + No` entries for the `k`-th correspondence; when the faces of every
correspondence have as many nodes as their master elements say, the node set of
the `k`-th call is the current face's nodes in their order followed by the
opposing face's nodes in their order; and when the parent elements do too, the
`k`-th call carries the residual and the Jacobian of the `k`-th correspondence
(those of a pass over it alone). -/
theorem scatter_once_per_correspondence (R : Realm) (alg : Algorithm) :
    let flat := R.nonConformalInfoVec_.flatten.flatten
    (execute R alg).length = flat.length
    ∧ flat.length =
        (R.nonConformalInfoVec_.map (fun dgInfoVec => (dgInfoVec.map List.length).sum)).sum
    ∧ (execute R alg).map (fun b => b.connected_nodes.length) =
        flat.map (fun dg => dg.meFCCurrent_.nodesPerElement_ + dg.meFCOpposing_.nodesPerElement_)
    ∧ ((∀ dg, dg ∈ flat →
          (R.begin_nodes dg.currentFace_).length = dg.meFCCurrent_.nodesPerElement_
          ∧ (R.begin_nodes dg.opposingFace_).length = dg.meFCOpposing_.nodesPerElement_) →
        (execute R alg).map (fun b => b.connected_nodes) =
          flat.map (fun dg => R.begin_nodes dg.currentFace_ ++ R.begin_nodes dg.opposingFace_))
    ∧ ((∀ dg, dg ∈ flat →
          (R.begin_nodes dg.currentFace_).length = dg.meFCCurrent_.nodesPerElement_
          ∧ (R.begin_nodes dg.opposingFace_).length = dg.meFCOpposing_.nodesPerElement_
          ∧ (R.begin_nodes dg.currentElement_).length = dg.meSCSCurrent_.nodesPerElement_
          ∧ (R.begin_nodes dg.opposingElement_).length = dg.meSCSOpposing_.nodesPerElement_) →
        (execute R alg).map (fun b => (b.rhs, b.lhs)) =
          flat.map (fun dg =>
            ((processDgInfo R alg (Scratch.fresh R.nDim) dg).block.rhs,
             (processDgInfo R alg (Scratch.fresh R.nDim) dg).block.lhs))) := by
  intro flat
  refine ⟨execute_length R alg, ?_, ?_, ?_, ?_⟩
  · show (R.nonConformalInfoVec_.flatten.flatten).length = _
    rw [List.length_flatten, List.map_flatten, List.sum_flatten, List.map_map]
    rfl
  · have h := scatter_trace R alg (fun b => b.connected_nodes.length)
      (fun dg => dg.meFCCurrent_.nodesPerElement_ + dg.meFCOpposing_.nodesPerElement_)
      (fun _ => True) (fun _ _ _ => trivial) flat
      (fun s dg _ _ => pass_connected_nodes_length R alg s dg)
      (Scratch.fresh R.nDim, []) trivial
    rw [← execute_flat] at h
    exact h
  · intro hsz
    have h := scatter_trace R alg (fun b => b.connected_nodes)
      (fun dg => R.begin_nodes dg.currentFace_ ++ R.begin_nodes dg.opposingFace_)
      (fun _ => True) (fun _ _ _ => trivial) flat
      (fun s dg hdg _ => pass_connected_nodes_eq R alg s dg (hsz dg hdg).1 (hsz dg hdg).2)
      (Scratch.fresh R.nDim, []) trivial
    rw [← execute_flat] at h
    exact h
  · intro hsz
    have h := scatter_trace R alg (fun b => (b.rhs, b.lhs))
      (fun dg =>
        ((processDgInfo R alg (Scratch.fresh R.nDim) dg).block.rhs,
         (processDgInfo R alg (Scratch.fresh R.nDim) dg).block.lhs))
      (fun s => s.cNx.length = R.nDim ∧ s.oNx.length = R.nDim)
      (fun s dg hs => by
        have hn := pass_normals_length R alg s dg
        exact ⟨by rw [hn.1, hs.1], by rw [hn.2, hs.2]⟩)
      flat
      (fun s dg hdg hs => by
        have hi := pass_indep R alg s (Scratch.fresh R.nDim) dg hs.1 hs.2
          (by simp [Scratch.fresh]) (by simp [Scratch.fresh]) (hsz dg hdg).1 (hsz dg hdg).2.1
          (hsz dg hdg).2.2.1 (hsz dg hdg).2.2.2
        exact Prod.ext hi.1 hi.2)
      (Scratch.fresh R.nDim, []) ⟨by simp [Scratch.fresh], by simp [Scratch.fresh]⟩
    rw [← execute_flat] at h
    exact h

/-- C11, at the concrete mesh: the one group has two face lists of one pairing
each, the faces have the node counts of their master elements, and
`apply_coeff` receives two node sets, the six nodes of the three-node pairing
and then the four nodes of the conformal pairing, current face first. -/
theorem scatter_once_per_correspondence_witness :
    (execute exRealm exAlg).length = 2
    ∧ (execute exRealm exAlg).map (fun b => b.connected_nodes) =
        [[11, 12, 13] ++ [21, 22, 23], [2, 3] ++ [8, 5]] :=
  ⟨(scatter_once_per_correspondence exRealm exAlg).1,
   (scatter_once_per_correspondence exRealm exAlg).2.2.2.1 (fun dg hdg => by
      have hmem : dg = exDgA ∨ dg = exDg := by
        simpa [exRealm] using hdg
      rcases hmem with rfl | rfl
      · exact ⟨by decide, by decide⟩
      · exact ⟨by decide, by decide⟩)⟩

/-! ## The normals -/

/-- C12, as the code has it. The normal evaluation makes no check and has no
error to report: for every correspondence, processed on normal buffers of size
`nDim`, the two magnitudes are the square roots of the sums of squares of the
current area vector at the current integration point and of the opposing area
vector at its first integration point; when a magnitude is strictly positive
the side's normal is the area vector divided by it; and `apply_coeff` is called
once for every correspondence, whatever the area vectors. -/
theorem normals_not_validated (R : Realm) (alg : Algorithm) (s : Scratch) (dg : DgInfo)
    (hc : s.cNx.length = R.nDim) (ho : s.oNx.length = R.nDim) :
    let p := processDgInfo R alg s dg
    p.c_amag =
        R.sqrt (∑ j ∈ Finset.range R.nDim,
          R.exposedAreaVec dg.currentFace_ (dg.currentGaussPointId_ * R.nDim + j)
            * R.exposedAreaVec dg.currentFace_ (dg.currentGaussPointId_ * R.nDim + j))
    ∧ p.o_amag =
        R.sqrt (∑ j ∈ Finset.range R.nDim,
          R.exposedAreaVec dg.opposingFace_ (0 * R.nDim + j)
            * R.exposedAreaVec dg.opposingFace_ (0 * R.nDim + j))
    ∧ (0 < p.c_amag → ∀ i, i < R.nDim →
        p.scratch.cNx.getD i 0 =
          R.exposedAreaVec dg.currentFace_ (dg.currentGaussPointId_ * R.nDim + i) / p.c_amag)
    ∧ (0 < p.o_amag → ∀ i, i < R.nDim →
        p.scratch.oNx.getD i 0 =
          R.exposedAreaVec dg.opposingFace_ (0 * R.nDim + i) / p.o_amag)
    ∧ (execute R alg).length = R.nonConformalInfoVec_.flatten.flatten.length := by
  intro p
  exact ⟨(pass_amag R alg s dg).1, (pass_amag R alg s dg).2,
    fun _ i hi => (pass_normals R alg s dg hc ho i hi).1,
    fun _ i hi => (pass_normals R alg s dg hc ho i hi).2,
    execute_length R alg⟩

/-- C12, amended, at the concrete conformal pairing: the fresh normal buffers
have size `2`, the current magnitude `1/2` is positive, and the first component
of the current normal is the area vector's first component divided by it. -/
theorem normals_not_validated_witness :
    ((Scratch.fresh 2).cNx.length = exRealm.nDim ∧ (Scratch.fresh 2).oNx.length = exRealm.nDim
      ∧ 0 < exPass.c_amag)
    ∧ exPass.scratch.cNx.getD 0 0 =
        exRealm.exposedAreaVec exDg.currentFace_ (exDg.currentGaussPointId_ * exRealm.nDim + 0)
          / exPass.c_amag :=
  have hpos : 0 < exPass.c_amag := by
    rw [exPass_values.2.2.2.2.2.2.2.2.1]
    norm_num
  ⟨⟨by simp [Scratch.fresh, exRealm], by simp [Scratch.fresh, exRealm], hpos⟩,
   (normals_not_validated exRealm exAlg (Scratch.fresh 2) exDg
      (by simp [Scratch.fresh, exRealm]) (by simp [Scratch.fresh, exRealm])).2.2.1 hpos 0
      (by decide)⟩

/-- C12 as stated fails: on the mesh whose current face has a zero area vector
(sum of squares `0`, magnitude `0`) the pass over the pairing goes through and
`execute` hands its block to `apply_coeff`: one block is scattered, and the
driver has no other outcome than the list of scattered blocks. -/
theorem normals_not_validated_counterexample :
    (∑ j ∈ Finset.range exZeroRealm.nDim,
        exZeroRealm.exposedAreaVec exDg.currentFace_
            (exDg.currentGaussPointId_ * exZeroRealm.nDim + j)
          * exZeroRealm.exposedAreaVec exDg.currentFace_
            (exDg.currentGaussPointId_ * exZeroRealm.nDim + j)) = 0
    ∧ (processDgInfo exZeroRealm exAlg (Scratch.fresh 2) exDg).c_amag = 0
    ∧ execute exZeroRealm exAlg =
        [(processDgInfo exZeroRealm exAlg (Scratch.fresh 2) exDg).block]
    ∧ (execute exZeroRealm exAlg).length = 1 := by
  have hsum : (∑ j ∈ Finset.range exZeroRealm.nDim,
      exZeroRealm.exposedAreaVec exDg.currentFace_
          (exDg.currentGaussPointId_ * exZeroRealm.nDim + j)
        * exZeroRealm.exposedAreaVec exDg.currentFace_
          (exDg.currentGaussPointId_ * exZeroRealm.nDim + j)) = 0 := by
    simp [exZeroRealm, exDg]
  have hsqrt : exZeroRealm.sqrt 0 = 0 := by
    show ratSqrt 0 = 0
    norm_num [ratSqrt]
  have hex : execute exZeroRealm exAlg =
      [(processDgInfo exZeroRealm exAlg (Scratch.fresh 2) exDg).block] := rfl
  refine ⟨hsum, ?_, hex, ?_⟩
  · rw [(pass_amag exZeroRealm exAlg (Scratch.fresh 2) exDg).1, hsum, hsqrt]
  · rw [hex]
    rfl

/-! ## Construction -/

/-- C13. For every value of the upwind and divergence switches, construction
gives: for the dg policy `dsFactor = 1` and Robin-style off; for the direct
policy `dsFactor = 0` and Robin-style off; for the robin policy `dsFactor = 1`
and Robin-style on; for any other value the defaults `dsFactor = 1` and
Robin-style off; and for every policy the upwind and divergence switches are
those of the configuration. -/
theorem construct_flags (get_nc_alg_upwind_advection : Bool) (get_divU : ℚ) :
    ((construct .NC_ALG_TYPE_DG get_nc_alg_upwind_advection get_divU).dsFactor_ = 1
      ∧ (construct .NC_ALG_TYPE_DG get_nc_alg_upwind_advection get_divU).robinStyle_ = false)
    ∧ ((construct .NC_ALG_TYPE_DS get_nc_alg_upwind_advection get_divU).dsFactor_ = 0
      ∧ (construct .NC_ALG_TYPE_DS get_nc_alg_upwind_advection get_divU).robinStyle_ = false)
    ∧ ((construct .NC_ALG_TYPE_RB get_nc_alg_upwind_advection get_divU).dsFactor_ = 1
      ∧ (construct .NC_ALG_TYPE_RB get_nc_alg_upwind_advection get_divU).robinStyle_ = true)
    ∧ (∀ code : Nat,
        (construct (.other code) get_nc_alg_upwind_advection get_divU).dsFactor_ = 1
        ∧ (construct (.other code) get_nc_alg_upwind_advection get_divU).robinStyle_ = false)
    ∧ (∀ algType : NonConformalAlgType,
        (construct algType get_nc_alg_upwind_advection get_divU).upwindAdvection_
          = get_nc_alg_upwind_advection
        ∧ (construct algType get_nc_alg_upwind_advection get_divU).includeDivU_
          = get_divU) := by
  refine ⟨⟨rfl, rfl⟩, ⟨rfl, rfl⟩, ⟨rfl, rfl⟩, fun _ => ⟨rfl, rfl⟩, fun algType => ?_⟩
  cases algType <;> exact ⟨rfl, rfl⟩

end Nalu
